import Mathlib

/-!
SwiftSnails, `src/utils/Buffer.h`: a shallow embedding.

The header defines `BasicBuffer` (a heap region with three raw pointers and a
capacity), `BinaryBuffer` (raw fixed-width scalars) and `TextBuffer` (decimal
text tokens).

Modelling conventions

* A `char*` is an address, an `Int`; `nullptr` is `0`.  Pointer arithmetic and
  pointer comparison are arithmetic and comparison of addresses, without
  wrap-around.
* A `size_t` is a `Nat`; arithmetic on `size_t` values is reduced modulo
  `2 ^ 64` where the source computes with them.
* The heap is a flat byte store `Int → Byte`.  A `memcpy` that stores at least
  one byte of a local object through the null pointer traps (a segmentation
  fault): the operation stops there and evaluates no later `CHECK`.  No other
  access outside the allocated region is trapped.
* `new char[n]` returns an address chosen by the allocator; the operations that
  may allocate take that address as the argument `newbuf`.  `delete` leaves the
  byte store as it is.
* `CHECK(c)` aborts when `c` is false.  An operation that can abort or trap
  returns an `Outcome`, which records the buffer as it was when the `CHECK`
  failed or the store trapped.
-/

namespace swift_snails

/-- One `char` of memory. -/
abbrev Byte := Fin 256

/-- The number of values of `size_t` (64-bit). -/
def SIZE_MOD : Nat := 18446744073709551616

/-- The heap: one byte at every address. -/
abbrev Memory := Int → Byte

/-- The call `memcpy(dst, src, n)` for non-overlapping regions: the `n` bytes at
`src` are copied to `dst`, every other byte keeps its value. -/
def memcpy (mem : Memory) (dst src : Int) (n : Nat) : Memory :=
  fun a => if dst ≤ a ∧ a < dst + n then mem (src + (a - dst)) else mem a

/-- The byte store after `memcpy(dst, &x, bs.length)` has copied the object
representation `bs` of a local object `x` to `dst`.  Whether the copy takes
place at all is decided by `memcpy_store`. -/
def storeBytes (mem : Memory) (dst : Int) (bs : List Byte) : Memory :=
  fun a => if dst ≤ a ∧ a < dst + bs.length then bs.getD (a - dst).toNat 0 else mem a

/-- The call `memcpy(dst, &x, bs.length)` through a pointer of the buffer: it
traps (`none`) when it has to store at least one byte through the null pointer,
and otherwise gives the byte store with `bs` at `dst`. -/
def memcpy_store (mem : Memory) (dst : Int) (bs : List Byte) : Option Memory :=
  if dst = 0 ∧ bs ≠ [] then none else some (storeBytes mem dst bs)

/-- The bytes that `memcpy(&x, src, n)` copies into a local object: the `n`
bytes at `src`, lowest address first. -/
def loadBytes (mem : Memory) (src : Int) (n : Nat) : List Byte :=
  (List.range n).map (fun i => mem (src + i))

/-- The fields of `class BasicBuffer` together with the heap they point into. -/
structure BasicBuffer where
  _buffer : Int
  _cursor : Int
  _end : Int
  _capacity : Nat
  mem : Memory

/-- The result of an operation that contains a `CHECK` or a store through a
pointer of the buffer: it returned to its caller, a `CHECK` failed, or a store
through the null pointer trapped.  The buffer is the one at that moment. -/
inductive Outcome (α : Type) where
  | done (s : BasicBuffer) (a : α)
  | check_failed (s : BasicBuffer)
  | segfault (s : BasicBuffer)

/-- The operation returned to its caller. -/
def Outcome.completes {α : Type} : Outcome α → Bool
  | .done _ _ => true
  | .check_failed _ => false
  | .segfault _ => false

namespace BasicBuffer

/-- The default constructor `BasicBuffer()`: every pointer is `nullptr`, the
capacity is `0`. -/
def new (mem : Memory) : BasicBuffer :=
  { _buffer := 0, _cursor := 0, _end := 0, _capacity := 0, mem := mem }

/-- The accessor `char* buffer()`. -/
def buffer (s : BasicBuffer) : Int := s._buffer

/-- The accessor `char* cursor()`. -/
def cursor (s : BasicBuffer) : Int := s._cursor

/-- The accessor `char* end()`; `end` is a reserved word, hence the name. -/
def end_ (s : BasicBuffer) : Int := s._end

/-- The accessor `size_t capacity()`. -/
def capacity (s : BasicBuffer) : Nat := s._capacity

/-- The member `size_t size()`: `end() - buffer()`, a `ptrdiff_t` converted to
`size_t`. -/
def size (s : BasicBuffer) : Nat := ((s.end_ - s.buffer) % (SIZE_MOD : Int)).toNat

/-- The member `void set_cursor(char* x)`: `CHECK(_cursor < end()); _cursor = x;`.
The `CHECK` reads the cursor before the assignment. -/
def set_cursor (s : BasicBuffer) (x : Int) : Outcome Unit :=
  if s._cursor < s.end_ then .done { s with _cursor := x } () else .check_failed s

/-- The member `void set_end(char* x)`: `_end = x;`. -/
def set_end (s : BasicBuffer) (x : Int) : BasicBuffer := { s with _end := x }

/-- The member `void reset_cursor()`: `_cursor = buffer();`. -/
def reset_cursor (s : BasicBuffer) : BasicBuffer := { s with _cursor := s.buffer }

/-- The member `bool read_finished()`: `CHECK(cursor() <= end());
return cursor() == end();`. -/
def read_finished (s : BasicBuffer) : Outcome Bool :=
  if s.cursor ≤ s.end_ then .done s (decide (s.cursor = s.end_)) else .check_failed s

/-- The member `void clear()`: the three pointers become `nullptr`, the
capacity `0`. -/
def clear (s : BasicBuffer) : BasicBuffer :=
  { s with _buffer := 0, _cursor := 0, _end := 0, _capacity := 0 }

/-- The member `void free()`: `delete _buffer; clear();` when `_buffer` is not
null. -/
def free (s : BasicBuffer) : BasicBuffer :=
  if s._buffer ≠ 0 then s.clear else s

/-- The member `void reserve(size_t newcap)`, statement by statement; `newbuf`
is the address returned by `new char[newcap]`.  The call `free()` comes after
the assignments to `_cursor`, `_end` and `_capacity` and before the assignment
to `_buffer`, as in the source. -/
def reserve (s : BasicBuffer) (newbuf : Int) (newcap : Nat) : BasicBuffer :=
  if newcap > s.capacity then
    let s1 : BasicBuffer :=
      if s.size > 0 then { s with mem := memcpy s.mem newbuf s.buffer s.size } else s
    let s2 : BasicBuffer := { s1 with _cursor := newbuf + (s1.cursor - s1.buffer) }
    let s3 : BasicBuffer := { s2 with _end := s2._cursor + 1 }
    let s4 : BasicBuffer := { s3 with _capacity := newcap }
    let s5 : BasicBuffer := s4.free
    { s5 with _buffer := newbuf }
  else s

/-- The member `void put_cursor_preceed(size_t size)`:
`CHECK(cursor() + size < end()); _cursor += size; _end = _cursor + 1;`. -/
def put_cursor_preceed (s : BasicBuffer) (size : Nat) : Outcome Unit :=
  if s.cursor + size < s.end_ then
    let s1 : BasicBuffer := { s with _cursor := s._cursor + size }
    .done { s1 with _end := s1._cursor + 1 } ()
  else .check_failed s

/-- The move constructor `BasicBuffer(BasicBuffer&& other)`: the constructed
buffer, and `other` after `other.clear()`. -/
def move (other : BasicBuffer) : BasicBuffer × BasicBuffer :=
  ({ _buffer := other._buffer, _cursor := other._cursor, _end := other._end,
     _capacity := other._capacity, mem := other.mem },
   other.clear)

end BasicBuffer

/-- Modelled from the spec: the type `byte_t` is declared in `common.h`, which
is not part of the sources; the spec calls it a "single byte", so its width
is `1`. -/
def SIZEOF_BYTE_T : Nat := 1

/-- Modelled from the spec: the macros `SS_REPEAT1` to `SS_REPEAT6` are defined
in `common.h`, which is not part of the sources; following the spec (the codecs
serve "a closed set of types") each one expands `SS_REPEAT_PATTERN` once for
every argument.  These are the types named in the `SS_REPEAT` lines of
`BinaryBuffer`. -/
inductive Scalar where
  | int16_t | uint16_t | int32_t | uint32_t | int64_t | uint64_t
  | double | float | bool | byte_t
  deriving DecidableEq

namespace Scalar

/-- The operator `sizeof(T)` on a 64-bit host. -/
def sizeof : Scalar → Nat
  | int16_t => 2 | uint16_t => 2
  | int32_t => 4 | uint32_t => 4
  | int64_t => 8 | uint64_t => 8
  | double => 8 | float => 4
  | bool => 1 | byte_t => SIZEOF_BYTE_T

/-- The signed integer types. -/
def signed : Scalar → Bool
  | int16_t => true | int32_t => true | int64_t => true
  | _ => false

end Scalar

/-- The `n` low-order bytes of `u`, least significant first. -/
def leBytes : Nat → Nat → List Byte
  | 0, _ => []
  | n + 1, u => ⟨u % 256, Nat.mod_lt u (by decide)⟩ :: leBytes n (u / 256)

/-- The number whose little-endian bytes are `bs`. -/
def leValue : List Byte → Nat
  | [] => 0
  | b :: bs => b.val + 256 * leValue bs

namespace Scalar

/-- The object representation of a value of type `T` on a little-endian host:
what `memcpy(dst, &x, sizeof(T))` copies.  For an integer type, `bool` and
`byte_t`, `x` is the numeric value, in two's complement.  Floating-point
values are not part of the model: for `float` and `double`, `x` is the
IEEE 754 bit pattern of the value (binary32, binary64) read as an unsigned
integer, so that the bytes are the bytes of that pattern; the codec only copies
them. -/
def toBytes (T : Scalar) (x : Int) : List Byte :=
  leBytes T.sizeof (x % ((2 ^ (8 * T.sizeof) : Nat) : Int)).toNat

/-- The value of type `T` whose object representation is `bs`: what
`memcpy(&x, src, sizeof(T))` leaves in `x`.  For `float` and `double` the result
is the IEEE 754 bit pattern that was copied, as an unsigned integer, not the
number it denotes. -/
def ofBytes (T : Scalar) (bs : List Byte) : Int :=
  let u : Nat := leValue bs
  if T.signed ∧ 2 ^ (8 * T.sizeof - 1) ≤ u then (u : Int) - ((2 ^ (8 * T.sizeof) : Nat) : Int)
  else (u : Int)

end Scalar

namespace BinaryBuffer

/-- The member `template<typename T> void get_raw(T& x)`:
`CHECK(! read_finished()); memcpy(&x, cursor(), sizeof(T));
put_cursor_preceed(sizeof(T));`. -/
def get_raw (T : Scalar) (s : BasicBuffer) : Outcome Int :=
  match s.read_finished with
  | .check_failed s1 => .check_failed s1
  | .segfault s1 => .segfault s1
  | .done s1 finished =>
    if !finished then
      let x : Int := T.ofBytes (loadBytes s1.mem s1.cursor T.sizeof)
      match s1.put_cursor_preceed T.sizeof with
      | .check_failed s2 => .check_failed s2
      | .segfault s2 => .segfault s2
      | .done s2 _ => .done s2 x
    else .check_failed s1

/-- The member `template<typename T> void put_raw(T& x)`: `reserve(2 *
capacity())` if `size() + sizeof(x) > capacity()`, then `memcpy(end(), &x,
sizeof(T)); put_cursor_preceed(sizeof(T));`.  The argument `newbuf` is the
address that `new char[newcap]` returns if `reserve` allocates.  The copy traps
when `end()` is null. -/
def put_raw (T : Scalar) (x : Int) (newbuf : Int) (s : BasicBuffer) : Outcome Unit :=
  let s1 : BasicBuffer :=
    if (s.size + T.sizeof) % SIZE_MOD > s.capacity then
      let newcap : Nat := (2 * s.capacity) % SIZE_MOD
      s.reserve newbuf newcap
    else s
  match memcpy_store s1.mem s1.end_ (T.toBytes x) with
  | none => .segfault s1
  | some m =>
    let s2 : BasicBuffer := { s1 with mem := m }
    s2.put_cursor_preceed T.sizeof

/-- The member `BasicBuffer& operator>>(T& x)`: `get_raw(x)`. -/
def operator_shr (T : Scalar) (s : BasicBuffer) : Outcome Int := get_raw T s

/-- The member `BasicBuffer& operator<<(const T& x)`: `put_raw(x)`. -/
def operator_shl (T : Scalar) (x : Int) (newbuf : Int) (s : BasicBuffer) : Outcome Unit :=
  put_raw T x newbuf s

/-- The member `template<typename T> T get()`: `T x; *this >> x; return x;`. -/
def get (T : Scalar) (s : BasicBuffer) : Outcome Int := operator_shr T s

end BinaryBuffer

/-- The decimal digits of `n`, most significant first, in front of `acc`;
`fuel` bounds the number of digits produced. -/
def decimalDigits : Nat → Nat → List Byte → List Byte
  | 0, _, acc => acc
  | fuel + 1, n, acc =>
    let acc1 : List Byte := ⟨48 + n % 10, by omega⟩ :: acc
    if n / 10 = 0 then acc1 else decimalDigits fuel (n / 10) acc1

/-- The call `std::to_string(x)` for an integer `x`: a minus sign for a negative
value, then the decimal digits without leading zeros. -/
def to_string (x : Int) : List Byte :=
  if x < 0 then 45 :: decimalDigits (x.natAbs + 1) x.natAbs []
  else decimalDigits (x.natAbs + 1) x.natAbs []

namespace TextBuffer

/-- The member `TextBuffer& operator<<(const std::string& x)`: `reserve(2 *
capacity())` if `x.size() + size() > capacity()`, then `memcpy(buffer(),
x.c_str(), x.size()); put_cursor_preceed(x.size()); set_end(cursor() + 1);`.
The copy goes to `buffer()`, as in the source; it traps when `buffer()` is null
and the string is not empty. -/
def operator_shl_string (x : List Byte) (newbuf : Int) (s : BasicBuffer) : Outcome Unit :=
  let s1 : BasicBuffer :=
    if (x.length + s.size) % SIZE_MOD > s.capacity then
      let newcap : Nat := (2 * s.capacity) % SIZE_MOD
      s.reserve newbuf newcap
    else s
  match memcpy_store s1.mem s1.buffer x with
  | none => .segfault s1
  | some m =>
    let s2 : BasicBuffer := { s1 with mem := m }
    match s2.put_cursor_preceed x.length with
    | .check_failed s3 => .check_failed s3
    | .segfault s3 => .segfault s3
    | .done s3 _ => .done (s3.set_end (s3.cursor + 1)) ()

/-- The member `TextBuffer& operator<<(T x)` for the integer types of
`SS_REPEAT6(int16_t, uint16_t, int32_t, uint32_t, int64_t, uint64_t)` and
`bool`: `std::to_string(x)`, one space, then the string overload.  Every
overload has this body; the value `x` is the integer it converts. -/
def operator_shl (x : Int) (newbuf : Int) (s : BasicBuffer) : Outcome Unit :=
  let x_ : List Byte := to_string x ++ [32]
  operator_shl_string x_ newbuf s

end TextBuffer

/-- The test `isspace(c)` in the "C" locale: space, `\t`, `\n`, `\v`, `\f`, `\r`. -/
def isspace (c : Byte) : Bool := decide (c.val = 32 ∨ (9 ≤ c.val ∧ c.val ≤ 13))

/-- The test `isdigit(c)`: `'0'` to `'9'`. -/
def isdigit (c : Byte) : Bool := decide (48 ≤ c.val ∧ c.val ≤ 57)

/-- The address of the first byte at or after `p` that is not white space.  The
scan looks at no more than `fuel` bytes. -/
def skipSpaces : Nat → Memory → Int → Int
  | 0, _, p => p
  | fuel + 1, mem, p => if isspace (mem p) then skipSpaces fuel mem (p + 1) else p

/-- The run of decimal digits that starts at `p`: the number they spell after
the digits already accumulated in `acc`, and the address of the first byte that
is not a digit.  The scan looks at no more than `fuel` bytes. -/
def scanDigits : Nat → Memory → Int → Nat → Nat × Int
  | 0, _, p, acc => (acc, p)
  | fuel + 1, mem, p, acc =>
    if isdigit (mem p) then scanDigits fuel mem (p + 1) (10 * acc + ((mem p).val - 48))
    else (acc, p)

/-- The subject sequence that `strtol` and `strtoul` recognise in base 10 at
`nptr`: optional white space, an optional sign, then at least one digit.  The
result is the sign, the magnitude and the address after the last digit, or
`none` when no digit follows the optional sign.  Each scan is bounded by the
size of the address space. -/
def parseDecimal (mem : Memory) (nptr : Int) : Option (Bool × Nat × Int) :=
  let p : Int := skipSpaces SIZE_MOD mem nptr
  let q : Int := if mem p = 45 ∨ mem p = 43 then p + 1 else p
  if isdigit (mem q) then
    let r : Nat × Int := scanDigits SIZE_MOD mem q 0
    some (decide (mem p = 45), r.1, r.2)
  else none

/-- The constant `LONG_MAX` of a 64-bit `long`. -/
def LONG_MAX : Int := 9223372036854775807

/-- The constant `LONG_MIN` of a 64-bit `long`. -/
def LONG_MIN : Int := -9223372036854775808

/-- The constant `ULONG_MAX` of a 64-bit `unsigned long`. -/
def ULONG_MAX : Int := 18446744073709551615

/-- The call `strtol(nptr, &cend, 10)`: the value returned and `cend`.  Without
a digit the value is `0` and `cend` is `nptr`; a value outside `long` is
clamped. -/
def strtol (mem : Memory) (nptr : Int) : Int × Int :=
  match parseDecimal mem nptr with
  | none => (0, nptr)
  | some (neg, u, cend) =>
    (if neg then max LONG_MIN (-(u : Int)) else min LONG_MAX (u : Int), cend)

/-- The call `strtoul(nptr, &cend, 10)`: the value returned and `cend`.  A
magnitude above `ULONG_MAX` gives `ULONG_MAX`; after a minus sign the magnitude
is negated in `unsigned long`. -/
def strtoul (mem : Memory) (nptr : Int) : Int × Int :=
  match parseDecimal mem nptr with
  | none => (0, nptr)
  | some (neg, u, cend) =>
    (if ULONG_MAX < (u : Int) then ULONG_MAX
     else if neg then (-(u : Int)) % (SIZE_MOD : Int) else (u : Int), cend)

/-- The types for which `TextBuffer` generates an integer `get_math`:
`SS_REPEAT4(int16_t, int32_t, int64_t, bool)` through `strtol` and
`SS_REPEAT3(uint16_t, uint32_t, uint64_t)` through `strtoul`.  The overloads
for `float` and `double` go through `strtod` and are not part of the model. -/
inductive IntegerType where
  | int16_t | int32_t | int64_t | bool | uint16_t | uint32_t | uint64_t
  deriving DecidableEq

namespace IntegerType

/-- The overload for this type calls `strtol` (otherwise `strtoul`). -/
def usesStrtol : IntegerType → Bool
  | int16_t => true | int32_t => true | int64_t => true | bool => true
  | _ => false

/-- The conversion `(T)v` of a `long` or `unsigned long` value `v`: reduction
modulo `2 ^ width` into the range of `T`, and `v != 0` for `bool`. -/
def cast : IntegerType → Int → Int
  | int16_t, v => (v + 32768) % 65536 - 32768
  | int32_t, v => (v + 2147483648) % 4294967296 - 2147483648
  | int64_t, v => (v + 9223372036854775808) % 18446744073709551616 - 9223372036854775808
  | bool, v => if v = 0 then 0 else 1
  | uint16_t, v => v % 65536
  | uint32_t, v => v % 4294967296
  | uint64_t, v => v % 18446744073709551616

end IntegerType

namespace TextBuffer

/-- The member `void get_math(T& x)` for an integer type `T`:
`x = (T)strtol(cursor(), &cend, 10); set_cursor(cend);`, with `strtoul` for the
unsigned types. -/
def get_math (T : IntegerType) (s : BasicBuffer) : Outcome Int :=
  let r : Int × Int := if T.usesStrtol then strtol s.mem s.cursor else strtoul s.mem s.cursor
  match s.set_cursor r.2 with
  | .check_failed s1 => .check_failed s1
  | .segfault s1 => .segfault s1
  | .done s1 _ => .done s1 (T.cast r.1)

/-- The member `TextBuffer& operator>>(T& x)` for an integer type `T`. -/
def operator_shr (T : IntegerType) (s : BasicBuffer) : Outcome Int := get_math T s

end TextBuffer

namespace BasicBuffer

/-- The storage invariant `0 <= cursor <= end <= capacity`, the offsets being
measured from `buffer()`. -/
def Inv (s : BasicBuffer) : Prop :=
  s.buffer ≤ s.cursor ∧ s.cursor ≤ s.end_ ∧ s.end_ ≤ s.buffer + s.capacity

instance (s : BasicBuffer) : Decidable s.Inv := by
  unfold Inv; infer_instance

end BasicBuffer

/-- A heap in which the eight bytes at address `1000` are the `int32_t` values
`42` and `7`, every other byte being `0`. -/
def sampleMem : Memory := storeBytes (fun _ => 0) 1000 [42, 0, 0, 0, 7, 0, 0, 0]

/-- A buffer ready to be read: its region of capacity `8` starts at address
`1000` and holds eight valid bytes, the cursor is at the start. -/
def sampleFull : BasicBuffer :=
  { _buffer := 1000, _cursor := 1000, _end := 1008, _capacity := 8, mem := sampleMem }

/-- A buffer in write mode: its region of capacity `16` starts at address
`1000`, four bytes are valid, cursor and end are both at offset `4`. -/
def sampleWrite : BasicBuffer :=
  { _buffer := 1000, _cursor := 1004, _end := 1004, _capacity := 16, mem := sampleMem }

/-- A buffer with room after the valid data: capacity `16` at address `1000`,
cursor at the start, end at offset `8`. -/
def sampleRoom : BasicBuffer :=
  { _buffer := 1000, _cursor := 1000, _end := 1008, _capacity := 16, mem := sampleMem }

/-- A heap in which the four bytes at address `1000` are the text `"123 "`,
every other byte being `0`. -/
def sampleTextMem : Memory := storeBytes (fun _ => 0) 1000 [49, 50, 51, 32]

/-- A buffer whose region of capacity `8` starts at address `1000`; only the
first byte is valid (`end` is at offset `1`), the cursor is at the start. -/
def sampleText : BasicBuffer :=
  { _buffer := 1000, _cursor := 1000, _end := 1001, _capacity := 8, mem := sampleTextMem }

namespace IntegerType

/-- The signed integer types `int16_t`, `int32_t` and `int64_t`. -/
def signed : IntegerType → Bool
  | int16_t => true | int32_t => true | int64_t => true
  | _ => false

/-- The values of type `T`. -/
def inRange : IntegerType → Int → Prop
  | int16_t, v => -32768 ≤ v ∧ v ≤ 32767
  | int32_t, v => -2147483648 ≤ v ∧ v ≤ 2147483647
  | int64_t, v => -9223372036854775808 ≤ v ∧ v ≤ 9223372036854775807
  | bool, v => 0 ≤ v ∧ v ≤ 1
  | uint16_t, v => 0 ≤ v ∧ v ≤ 65535
  | uint32_t, v => 0 ≤ v ∧ v ≤ 4294967295
  | uint64_t, v => 0 ≤ v ∧ v ≤ 18446744073709551615

instance (T : IntegerType) (v : Int) : Decidable (T.inRange v) := by
  cases T <;> unfold inRange <;> infer_instance

end IntegerType

/-- A buffer below whose region the cursor points: the region of capacity `8`
starts at address `1000` and holds eight valid bytes, the cursor is at address
`990`, as after `set_cursor` with that address. -/
def sampleLow : BasicBuffer :=
  { _buffer := 1000, _cursor := 990, _end := 1008, _capacity := 8, mem := sampleMem }

/-- A buffer whose eight valid bytes, in a region of capacity `8` at address
`1000`, are the text `"-17 42 x"`; the cursor is at the start. -/
def sampleTokens : BasicBuffer :=
  { _buffer := 1000, _cursor := 1000, _end := 1008, _capacity := 8,
    mem := storeBytes (fun _ => 0) 1000 [45, 49, 55, 32, 52, 50, 32, 120] }

/-- A buffer whose four valid bytes, in a region of capacity `8` at address
`1000`, are the text `"abc "`; the cursor is at the start. -/
def sampleLetters : BasicBuffer :=
  { _buffer := 1000, _cursor := 1000, _end := 1004, _capacity := 8,
    mem := storeBytes (fun _ => 0) 1000 [97, 98, 99, 32] }

/-- The buffer `sampleText` with other bytes after its one valid byte: the
region starts with the text `"1 "` instead of `"123 "`. -/
def sampleTextOther : BasicBuffer :=
  { _buffer := 1000, _cursor := 1000, _end := 1001, _capacity := 8,
    mem := storeBytes (fun _ => 0) 1000 [49, 32] }

/-- Every scalar type occupies at least one byte. -/
theorem Scalar.sizeof_pos (T : Scalar) : 1 ≤ T.sizeof := by
  cases T <;> decide

/-- An advance whose `CHECK` passes: the cursor moves by `n` and `end` becomes
the new cursor plus one. -/
theorem BasicBuffer.put_cursor_preceed_of_lt (s : BasicBuffer) (n : Nat)
    (h : s._cursor + n < s._end) :
    s.put_cursor_preceed n =
      .done { s with _cursor := s._cursor + n, _end := s._cursor + n + 1 } () := by
  simp [put_cursor_preceed, cursor, end_, h]

/-- An advance whose `CHECK` fails leaves the buffer as it was. -/
theorem BasicBuffer.put_cursor_preceed_of_not_lt (s : BasicBuffer) (n : Nat)
    (h : ¬ s._cursor + n < s._end) :
    s.put_cursor_preceed n = .check_failed s := by
  simp [put_cursor_preceed, cursor, end_, h]

/-- The call `reserve(newcap)` does nothing when `newcap <= capacity()`. -/
theorem BasicBuffer.reserve_of_le (s : BasicBuffer) (newbuf : Int) (newcap : Nat)
    (h : newcap ≤ s._capacity) : s.reserve newbuf newcap = s := by
  have h1 : ¬ newcap > s.capacity := by simpa [capacity] using h
  simp [reserve, h1]

/-- The buffer after a growing `reserve`, in closed form: the call `free()`
clears the bookkeeping when the buffer owned a region. -/
theorem BasicBuffer.reserve_of_gt (s : BasicBuffer) (newbuf : Int) (newcap : Nat)
    (h : s._capacity < newcap) :
    s.reserve newbuf newcap =
      if s._buffer ≠ 0 then
        { _buffer := newbuf, _cursor := 0, _end := 0, _capacity := 0,
          mem := if s.size > 0 then memcpy s.mem newbuf s._buffer s.size else s.mem }
      else
        { _buffer := newbuf, _cursor := newbuf + s._cursor,
          _end := newbuf + s._cursor + 1, _capacity := newcap,
          mem := if s.size > 0 then memcpy s.mem newbuf s._buffer s.size else s.mem } := by
  have h1 : newcap > s.capacity := by simpa [capacity] using h
  by_cases hb : s._buffer = 0 <;> by_cases hs : s.size > 0 <;>
    simp [reserve, h1, hb, hs, free, clear, buffer, cursor]

/-- After `reserve`, either nothing changed or no advance by `n >= 1` can pass
the `CHECK` of `put_cursor_preceed`: `end` is at most one past `cursor`. -/
theorem BasicBuffer.reserve_eq_or_end_le (s : BasicBuffer) (newbuf : Int) (newcap : Nat) :
    s.reserve newbuf newcap = s ∨
      ((s.reserve newbuf newcap)._end ≤ (s.reserve newbuf newcap)._cursor + 1 ∧
       ((s.reserve newbuf newcap)._end = (s.reserve newbuf newcap)._cursor + 1 →
          s._buffer = 0 ∧ s._capacity < newcap ∧
          (s.reserve newbuf newcap)._buffer = newbuf ∧
          (s.reserve newbuf newcap)._cursor = newbuf + s._cursor ∧
          (s.reserve newbuf newcap)._capacity = newcap)) := by
  by_cases h : s._capacity < newcap
  · right
    rw [BasicBuffer.reserve_of_gt s newbuf newcap h]
    by_cases hb : s._buffer = 0 <;> simp [hb, h]
  · left
    exact BasicBuffer.reserve_of_le s newbuf newcap (by omega)

/-- A store through a pointer that is not null takes place. -/
theorem memcpy_store_of_ne (mem : Memory) (dst : Int) (bs : List Byte) (h : dst ≠ 0) :
    memcpy_store mem dst bs = some (storeBytes mem dst bs) := by
  simp [memcpy_store, h]

/-- A store of at least one byte through the null pointer traps. -/
theorem memcpy_store_null (mem : Memory) (bs : List Byte) (h : bs ≠ []) :
    memcpy_store mem 0 bs = none := by
  simp [memcpy_store, h]

/-- A store of no byte takes place, whatever the pointer. -/
theorem memcpy_store_nil (mem : Memory) (dst : Int) :
    memcpy_store mem dst [] = some (storeBytes mem dst []) := by
  simp [memcpy_store]

/-- The little-endian bytes of a number: as many as asked for. -/
theorem leBytes_length : ∀ (n u : Nat), (leBytes n u).length = n := by
  intro n
  induction n with
  | zero => intro u; rfl
  | succ n ih => intro u; simp [leBytes, ih]

/-- The object representation of a scalar is not empty. -/
theorem Scalar.toBytes_ne_nil (T : Scalar) (x : Int) : T.toBytes x ≠ [] := by
  intro h
  have hl : (T.toBytes x).length = T.sizeof := leBytes_length _ _
  rw [h] at hl
  have := T.sizeof_pos
  simp at hl
  omega

/-- The binary write once the optional `reserve` has run and left the buffer
`r`: a trap if `end()` is null, otherwise the copy and the advance. -/
theorem BinaryBuffer.put_raw_eq (T : Scalar) (x newbuf : Int) (s : BasicBuffer) :
    BinaryBuffer.put_raw T x newbuf s =
      if (if (s.size + T.sizeof) % SIZE_MOD > s.capacity
            then s.reserve newbuf (2 * s.capacity % SIZE_MOD) else s)._end = 0
      then .segfault (if (s.size + T.sizeof) % SIZE_MOD > s.capacity
            then s.reserve newbuf (2 * s.capacity % SIZE_MOD) else s)
      else BasicBuffer.put_cursor_preceed
        { (if (s.size + T.sizeof) % SIZE_MOD > s.capacity
            then s.reserve newbuf (2 * s.capacity % SIZE_MOD) else s) with
          mem := storeBytes
            (if (s.size + T.sizeof) % SIZE_MOD > s.capacity
              then s.reserve newbuf (2 * s.capacity % SIZE_MOD) else s).mem
            (if (s.size + T.sizeof) % SIZE_MOD > s.capacity
              then s.reserve newbuf (2 * s.capacity % SIZE_MOD) else s)._end
            (T.toBytes x) } T.sizeof := by
  obtain ⟨r, hr⟩ : ∃ r : BasicBuffer, r = (if (s.size + T.sizeof) % SIZE_MOD > s.capacity
      then s.reserve newbuf (2 * s.capacity % SIZE_MOD) else s) := ⟨_, rfl⟩
  rw [← hr]
  have hdef : BinaryBuffer.put_raw T x newbuf s =
      (match memcpy_store r.mem r.end_ (T.toBytes x) with
        | none => Outcome.segfault r
        | some m => BasicBuffer.put_cursor_preceed { r with mem := m } T.sizeof) := by
    rw [hr]; rfl
  rw [hdef]
  by_cases h0 : r._end = 0
  · have h0' : r.end_ = 0 := h0
    rw [h0', memcpy_store_null _ _ (T.toBytes_ne_nil x), if_pos h0]
  · have h0' : r.end_ ≠ 0 := h0
    rw [memcpy_store_of_ne _ _ _ h0', if_neg h0]
    rfl

/-- A binary write returns only if the `CHECK` of `put_cursor_preceed` passed in
the state it was given, and then `reserve` changed nothing: the value is stored
at the old `end`, the cursor advances by `sizeof(T)` and `end` becomes the new
cursor plus one. -/
theorem BinaryBuffer.put_raw_done (T : Scalar) (x newbuf : Int) (s s' : BasicBuffer)
    (h : BinaryBuffer.put_raw T x newbuf s = .done s' ()) :
    s._cursor + T.sizeof < s._end ∧
      s' = { s with mem := storeBytes s.mem s._end (T.toBytes x),
                    _cursor := s._cursor + T.sizeof,
                    _end := s._cursor + T.sizeof + 1 } := by
  have hpos := T.sizeof_pos
  have key : ∀ r : BasicBuffer, (r = s ∨ r._end ≤ r._cursor + 1) →
      (if r._end = 0 then Outcome.segfault r
        else BasicBuffer.put_cursor_preceed
          { r with mem := storeBytes r.mem r._end (T.toBytes x) } T.sizeof) = .done s' () →
      s._cursor + T.sizeof < s._end ∧
        s' = { s with mem := storeBytes s.mem s._end (T.toBytes x),
                      _cursor := s._cursor + T.sizeof,
                      _end := s._cursor + T.sizeof + 1 } := by
    intro r hr hm
    by_cases h0 : r._end = 0
    · rw [if_pos h0] at hm
      cases hm
    · rw [if_neg h0] at hm
      by_cases hc : r._cursor + T.sizeof < r._end
      · have hc' : ({ r with mem := storeBytes r.mem r._end (T.toBytes x) } : BasicBuffer)._cursor
            + T.sizeof <
            ({ r with mem := storeBytes r.mem r._end (T.toBytes x) } : BasicBuffer)._end := hc
        rw [BasicBuffer.put_cursor_preceed_of_lt _ _ hc'] at hm
        injection hm with h1 _
        subst h1
        rcases hr with hr | hr
        · subst hr
          exact ⟨hc, rfl⟩
        · omega
      · have hc' : ¬ ({ r with mem := storeBytes r.mem r._end (T.toBytes x) } : BasicBuffer)._cursor
            + T.sizeof <
            ({ r with mem := storeBytes r.mem r._end (T.toBytes x) } : BasicBuffer)._end := hc
        rw [BasicBuffer.put_cursor_preceed_of_not_lt _ _ hc'] at hm
        cases hm
  rw [BinaryBuffer.put_raw_eq] at h
  refine key _ ?_ h
  split
  · rcases BasicBuffer.reserve_eq_or_end_le s newbuf (2 * s.capacity % SIZE_MOD) with hr | hr
    · exact Or.inl hr
    · exact Or.inr hr.1
  · exact Or.inl rfl

/-- A binary read with more than `sizeof(T)` bytes before `end` returns the
value stored at the cursor and advances the cursor; `end` becomes the new
cursor plus one. -/
theorem BinaryBuffer.get_raw_of_lt (T : Scalar) (s : BasicBuffer)
    (h : s._cursor + T.sizeof < s._end) :
    BinaryBuffer.get_raw T s =
      .done { s with _cursor := s._cursor + T.sizeof, _end := s._cursor + T.sizeof + 1 }
        (T.ofBytes (loadBytes s.mem s._cursor T.sizeof)) := by
  have hle : s._cursor ≤ s._end := by omega
  have hne : ¬ s._cursor = s._end := by omega
  simp [BinaryBuffer.get_raw, BasicBuffer.read_finished, BasicBuffer.cursor, BasicBuffer.end_,
    BasicBuffer.put_cursor_preceed, h, hle, hne]

/-- A binary read without `sizeof(T)` bytes strictly before `end` fails a
`CHECK` and leaves the buffer as it was. -/
theorem BinaryBuffer.get_raw_of_not_lt (T : Scalar) (s : BasicBuffer)
    (h : ¬ s._cursor + T.sizeof < s._end) :
    BinaryBuffer.get_raw T s = .check_failed s := by
  by_cases hle : s._cursor ≤ s._end
  · by_cases he : s._cursor = s._end
    · simp [BinaryBuffer.get_raw, BasicBuffer.read_finished, BasicBuffer.cursor,
        BasicBuffer.end_, he]
    · simp [BinaryBuffer.get_raw, BasicBuffer.read_finished, BasicBuffer.cursor,
        BasicBuffer.end_, BasicBuffer.put_cursor_preceed, h, hle, he]
  · simp [BinaryBuffer.get_raw, BasicBuffer.read_finished, BasicBuffer.cursor,
      BasicBuffer.end_, hle]

/-- A binary read that returns was given more than `sizeof(T)` bytes before
`end`. -/
theorem BinaryBuffer.get_raw_done (T : Scalar) (s s' : BasicBuffer) (x : Int)
    (h : BinaryBuffer.get_raw T s = .done s' x) :
    s._cursor + T.sizeof < s._end ∧
      s' = { s with _cursor := s._cursor + T.sizeof, _end := s._cursor + T.sizeof + 1 } ∧
      x = T.ofBytes (loadBytes s.mem s._cursor T.sizeof) := by
  by_cases hc : s._cursor + T.sizeof < s._end
  · rw [BinaryBuffer.get_raw_of_lt T s hc] at h
    injection h with h1 h2
    exact ⟨hc, h1.symm, h2.symm⟩
  · rw [BinaryBuffer.get_raw_of_not_lt T s hc] at h
    cases h

/-- An advance that passes its `CHECK` keeps the storage invariant. -/
theorem BasicBuffer.put_cursor_preceed_inv (s s' : BasicBuffer) (n : Nat) (hi : s.Inv)
    (h : s.put_cursor_preceed n = .done s' ()) : s'.Inv := by
  by_cases hc : s._cursor + n < s._end
  · rw [BasicBuffer.put_cursor_preceed_of_lt s n hc] at h
    injection h with h1 _
    subst h1
    simp only [Inv, buffer, cursor, end_, capacity] at hi ⊢
    omega
  · rw [BasicBuffer.put_cursor_preceed_of_not_lt s n hc] at h
    cases h

/-- A string write that returns: with `r` the buffer after the optional
`reserve`, the `CHECK` of `put_cursor_preceed` passed in `r`, the string is
stored at `buffer()`, the cursor advances by its length and `end` becomes the
new cursor plus one. -/
theorem TextBuffer.operator_shl_string_post (x : List Byte) (newbuf : Int)
    (s s' : BasicBuffer) (h : TextBuffer.operator_shl_string x newbuf s = .done s' ()) :
    ∃ r : BasicBuffer,
      r = (if (x.length + s.size) % SIZE_MOD > s.capacity
        then s.reserve newbuf (2 * s.capacity % SIZE_MOD) else s) ∧
      r._cursor + x.length < r._end ∧
      s' = { r with mem := storeBytes r.mem r._buffer x,
                    _cursor := r._cursor + x.length,
                    _end := r._cursor + x.length + 1 } := by
  obtain ⟨r, hr⟩ : ∃ r : BasicBuffer, r = (if (x.length + s.size) % SIZE_MOD > s.capacity
      then s.reserve newbuf (2 * s.capacity % SIZE_MOD) else s) := ⟨_, rfl⟩
  refine ⟨r, hr, ?_⟩
  have hdef : TextBuffer.operator_shl_string x newbuf s =
      (match memcpy_store r.mem r.buffer x with
        | none => Outcome.segfault r
        | some m =>
          match BasicBuffer.put_cursor_preceed { r with mem := m } x.length with
          | .check_failed s3 => Outcome.check_failed s3
          | .segfault s3 => Outcome.segfault s3
          | .done s3 _ => Outcome.done (s3.set_end (s3.cursor + 1)) ()) := by
    rw [hr]; rfl
  rw [hdef] at h
  by_cases h0 : r.buffer = 0 ∧ x ≠ []
  · simp only [memcpy_store, h0, and_self, ne_eq, not_false_eq_true, if_true] at h
    cases h
  · simp only [memcpy_store, h0, if_false] at h
    by_cases hc : r._cursor + x.length < r._end
    · have hc' : ({ r with mem := storeBytes r.mem r.buffer x } : BasicBuffer)._cursor
          + x.length < ({ r with mem := storeBytes r.mem r.buffer x } : BasicBuffer)._end := hc
      rw [BasicBuffer.put_cursor_preceed_of_lt _ _ hc'] at h
      simp only [BasicBuffer.set_end, BasicBuffer.cursor] at h
      injection h with h1 _
      exact ⟨hc, h1.symm⟩
    · have hc' : ¬ ({ r with mem := storeBytes r.mem r.buffer x } : BasicBuffer)._cursor
          + x.length < ({ r with mem := storeBytes r.mem r.buffer x } : BasicBuffer)._end := hc
      rw [BasicBuffer.put_cursor_preceed_of_not_lt _ _ hc'] at h
      cases h

/-- A string write that returns keeps the storage invariant. -/
theorem TextBuffer.operator_shl_string_inv (x : List Byte) (newbuf : Int)
    (s s' : BasicBuffer) (hi : s.Inv)
    (h : TextBuffer.operator_shl_string x newbuf s = .done s' ()) : s'.Inv := by
  obtain ⟨r, hr, hc, hs⟩ := TextBuffer.operator_shl_string_post x newbuf s s' h
  have hcases : r = s ∨ (r._end ≤ r._cursor + 1 ∧ (r._end = r._cursor + 1 →
      s._buffer = 0 ∧ s._capacity < (2 * s.capacity % SIZE_MOD) ∧ r._buffer = newbuf ∧
      r._cursor = newbuf + s._cursor ∧ r._capacity = (2 * s.capacity % SIZE_MOD))) := by
    rw [hr]
    split
    · exact BasicBuffer.reserve_eq_or_end_le s newbuf _
    · exact Or.inl rfl
  subst hs
  rcases hcases with hk | hk
  · rw [hk] at hc ⊢
    simp only [BasicBuffer.Inv, BasicBuffer.buffer, BasicBuffer.cursor, BasicBuffer.end_,
      BasicBuffer.capacity] at hi ⊢
    omega
  · have h2 := hk.2 (by omega)
    simp only [BasicBuffer.Inv, BasicBuffer.buffer, BasicBuffer.cursor, BasicBuffer.end_,
      BasicBuffer.capacity] at hi h2 ⊢
    omega

/-! ## C1 -/

/-- C1 (the code at the failing input, for every type and value): on a freshly
constructed `BinaryBuffer` the write `buf << v` does not return.  The capacity
is `0`, so `newcap = 2 * 0` and `reserve` allocates nothing; the copy
`memcpy(end(), &x, sizeof(T))` then goes through `end() == nullptr` and traps,
before the `CHECK` of `put_cursor_preceed` is reached.  No round trip is
possible. -/
theorem binary_write_on_fresh_buffer_fails (T : Scalar) (x newbuf : Int) (mem : Memory) :
    BinaryBuffer.operator_shl T x newbuf (BasicBuffer.new mem) =
        .segfault (BasicBuffer.new mem) ∧
      (BinaryBuffer.operator_shl T x newbuf (BasicBuffer.new mem)).completes = false := by
  have hr : (if ((BasicBuffer.new mem).size + T.sizeof) % SIZE_MOD > (BasicBuffer.new mem).capacity
      then (BasicBuffer.new mem).reserve newbuf (2 * (BasicBuffer.new mem).capacity % SIZE_MOD)
      else BasicBuffer.new mem) = BasicBuffer.new mem := by
    split
    · exact BasicBuffer.reserve_of_le _ _ _ (by simp [BasicBuffer.new, BasicBuffer.capacity])
    · rfl
  have h : BinaryBuffer.operator_shl T x newbuf (BasicBuffer.new mem) =
      .segfault (BasicBuffer.new mem) := by
    unfold BinaryBuffer.operator_shl
    rw [BinaryBuffer.put_raw_eq, hr]
    rfl
  exact ⟨h, by rw [h]; rfl⟩

/-! ## C2 -/

/-- C2 (the code at the failing input, for every integer value): on a freshly
constructed `TextBuffer` the write `buf << v` does not return.  The token
`to_string(v) + " "` is not empty, `reserve(2 * 0)` allocates nothing, and the
copy `memcpy(buffer(), x.c_str(), x.size())` goes through `buffer() == nullptr`
and traps, before the `CHECK` of `put_cursor_preceed` is reached. -/
theorem text_write_on_fresh_buffer_fails (x newbuf : Int) (mem : Memory) :
    TextBuffer.operator_shl x newbuf (BasicBuffer.new mem) =
        .segfault (BasicBuffer.new mem) ∧
      (TextBuffer.operator_shl x newbuf (BasicBuffer.new mem)).completes = false := by
  have hr : (if ((to_string x ++ [32]).length + (BasicBuffer.new mem).size) % SIZE_MOD >
        (BasicBuffer.new mem).capacity
      then (BasicBuffer.new mem).reserve newbuf (2 * (BasicBuffer.new mem).capacity % SIZE_MOD)
      else BasicBuffer.new mem) = BasicBuffer.new mem := by
    split
    · exact BasicBuffer.reserve_of_le _ _ _ (by simp [BasicBuffer.new, BasicBuffer.capacity])
    · rfl
  have hne : to_string x ++ [32] ≠ [] := by simp
  have h : TextBuffer.operator_shl x newbuf (BasicBuffer.new mem) =
      .segfault (BasicBuffer.new mem) := by
    have hdef : TextBuffer.operator_shl x newbuf (BasicBuffer.new mem) =
        (match memcpy_store
            (if ((to_string x ++ [32]).length + (BasicBuffer.new mem).size) % SIZE_MOD >
                (BasicBuffer.new mem).capacity
              then (BasicBuffer.new mem).reserve newbuf
                (2 * (BasicBuffer.new mem).capacity % SIZE_MOD)
              else BasicBuffer.new mem).mem
            (if ((to_string x ++ [32]).length + (BasicBuffer.new mem).size) % SIZE_MOD >
                (BasicBuffer.new mem).capacity
              then (BasicBuffer.new mem).reserve newbuf
                (2 * (BasicBuffer.new mem).capacity % SIZE_MOD)
              else BasicBuffer.new mem).buffer (to_string x ++ [32]) with
          | none => Outcome.segfault
              (if ((to_string x ++ [32]).length + (BasicBuffer.new mem).size) % SIZE_MOD >
                  (BasicBuffer.new mem).capacity
                then (BasicBuffer.new mem).reserve newbuf
                  (2 * (BasicBuffer.new mem).capacity % SIZE_MOD)
                else BasicBuffer.new mem)
          | some m =>
            match BasicBuffer.put_cursor_preceed
                { (if ((to_string x ++ [32]).length + (BasicBuffer.new mem).size) % SIZE_MOD >
                      (BasicBuffer.new mem).capacity
                    then (BasicBuffer.new mem).reserve newbuf
                      (2 * (BasicBuffer.new mem).capacity % SIZE_MOD)
                    else BasicBuffer.new mem) with mem := m } (to_string x ++ [32]).length with
            | .check_failed s3 => Outcome.check_failed s3
            | .segfault s3 => Outcome.segfault s3
            | .done s3 _ => Outcome.done (s3.set_end (s3.cursor + 1)) ()) := rfl
    rw [hdef, hr]
    have hb : (BasicBuffer.new mem).buffer = 0 := rfl
    rw [hb, memcpy_store_null _ _ hne]
  exact ⟨h, by rw [h]; rfl⟩

/-! ## C3 -/

/-- C3 (the code on every write-mode state): when `cursor == end`, a binary
write of any value of any scalar type does not return.  Without a reallocation
the bytes are copied to `end()` and `CHECK(cursor() + sizeof(T) < end())`
fails; after a reallocation `end <= cursor + 1`, so that the copy traps at a
null `end()` or the same `CHECK` fails. -/
theorem binary_write_in_write_mode_fails (T : Scalar) (x newbuf : Int) (s : BasicBuffer)
    (h : s.cursor = s.end_) :
    (BinaryBuffer.operator_shl T x newbuf s).completes = false := by
  cases hr : BinaryBuffer.operator_shl T x newbuf s with
  | check_failed s1 => rfl
  | segfault s1 => rfl
  | done s1 u =>
    exfalso
    have hd := (BinaryBuffer.put_raw_done T x newbuf s s1 hr).1
    simp only [BasicBuffer.cursor, BasicBuffer.end_] at h
    omega

/-- C3 at a buffer of capacity `16` with four valid bytes, cursor and end at
offset `4`: the write of `int32_t(7)` needs no reallocation and does not
return. -/
theorem binary_write_in_write_mode_fails_witness :
    sampleWrite.Inv ∧ sampleWrite.cursor = sampleWrite.end_ ∧
      sampleWrite.size + Scalar.int32_t.sizeof ≤ sampleWrite.capacity ∧
      (BinaryBuffer.operator_shl .int32_t 7 2000 sampleWrite).completes = false :=
  ⟨by decide, by decide, by decide,
   binary_write_in_write_mode_fails .int32_t 7 2000 sampleWrite (by decide)⟩

/-! ## C4 -/

/-- C4 (the code on every growing `reserve`): for `n > capacity()`,
`reserve(n)` does not keep the size and the offsets.  If the buffer owned a
region, `free()` runs after the new cursor, end and capacity were stored and
`clear()` resets them: capacity `0`, cursor and end null, only `_buffer` points
to the new region.  If it owned none, the capacity is `n` but `end` is set to
the cursor plus one instead of its old offset. -/
theorem reserve_loses_bookkeeping (s : BasicBuffer) (newbuf : Int) (n : Nat)
    (h : s.capacity < n) :
    (s.reserve newbuf n).buffer = newbuf ∧
      (s._buffer ≠ 0 →
        (s.reserve newbuf n).capacity = 0 ∧ (s.reserve newbuf n).cursor = 0 ∧
        (s.reserve newbuf n).end_ = 0) ∧
      (s._buffer = 0 →
        (s.reserve newbuf n).capacity = n ∧
        (s.reserve newbuf n).cursor = newbuf + s.cursor ∧
        (s.reserve newbuf n).end_ = (s.reserve newbuf n).cursor + 1) := by
  rw [BasicBuffer.reserve_of_gt s newbuf n h]
  by_cases hb : s._buffer = 0 <;>
    simp [hb, BasicBuffer.buffer, BasicBuffer.capacity, BasicBuffer.cursor, BasicBuffer.end_]

/-- C4 at a buffer of capacity `16` at address `1000` with `size() == 4`:
after `reserve(32)`, the new region being at address `2000`, the capacity is
`0` and cursor and end are null.  And at a freshly constructed buffer: after
`reserve(8)` the capacity is `8`, but `size()` is `1` instead of `0`. -/
theorem reserve_loses_bookkeeping_witness :
    (sampleWrite.Inv ∧ sampleWrite.capacity < 32 ∧ sampleWrite.size = 4 ∧
      (sampleWrite.reserve 2000 32).buffer = 2000 ∧
      (sampleWrite.reserve 2000 32).capacity = 0 ∧
      (sampleWrite.reserve 2000 32).cursor = 0 ∧
      (sampleWrite.reserve 2000 32).end_ = 0) ∧
    ((BasicBuffer.new sampleMem).size = 0 ∧
      ((BasicBuffer.new sampleMem).reserve 2000 8).capacity = 8 ∧
      ((BasicBuffer.new sampleMem).reserve 2000 8).end_ =
        ((BasicBuffer.new sampleMem).reserve 2000 8).cursor + 1 ∧
      ((BasicBuffer.new sampleMem).reserve 2000 8).size = 1) :=
  have h := reserve_loses_bookkeeping sampleWrite 2000 32 (by decide)
  have g := reserve_loses_bookkeeping (BasicBuffer.new sampleMem) 2000 8 (by decide)
  ⟨⟨by decide, by decide, by decide, h.1, (h.2.1 (by decide)).1, (h.2.1 (by decide)).2.1,
    (h.2.1 (by decide)).2.2⟩,
   ⟨by decide, (g.2.2 rfl).1, (g.2.2 rfl).2.2, by decide⟩⟩

/-! ## C5 -/

/-- C5, counterexample: four of the listed operations return normally and lose
the invariant `0 <= cursor <= end <= capacity`.  `set_end` stores a pointer
beyond the capacity (offset `20` of a region of `8` bytes); `set_cursor` stores
a cursor beyond `end` (offset `12`, `end` at offset `8`); the text read of an
`int32_t` from a region that starts with `"123 "` and has one valid byte leaves
the cursor at offset `3`, beyond `end` at offset `1`; `reserve(32)` on a buffer
that owns a region leaves cursor and end null while `_buffer` is the new
region. -/
theorem storage_invariant_not_preserved :
    (sampleFull.Inv ∧ ¬ (sampleFull.set_end 1020).Inv) ∧
    (sampleFull.set_cursor 1012 = .done { sampleFull with _cursor := 1012 } () ∧
      ¬ ({ sampleFull with _cursor := 1012 } : BasicBuffer).Inv) ∧
    (sampleText.Inv ∧
      TextBuffer.operator_shr .int32_t sampleText =
        .done { sampleText with _cursor := 1003 } 123 ∧
      ¬ ({ sampleText with _cursor := 1003 } : BasicBuffer).Inv) ∧
    (sampleWrite.Inv ∧ ¬ (sampleWrite.reserve 2000 32).Inv) :=
  ⟨⟨by decide, by decide⟩, ⟨rfl, by decide⟩, ⟨by decide, rfl, by decide⟩,
   ⟨by decide, by decide⟩⟩

/-- C5, amended: the invariant `0 <= cursor <= end <= capacity` holds for a
freshly constructed buffer and is preserved by `reset_cursor`, by
`put_cursor_preceed`, by the binary read and write, by the text write of a
string and of an integer, whenever these return without a failed `CHECK`, and
by move construction (for the constructed buffer and for the cleared
source). -/
theorem storage_invariant_preserved :
    (∀ mem : Memory, (BasicBuffer.new mem).Inv) ∧
    ∀ s : BasicBuffer, s.Inv →
      s.reset_cursor.Inv ∧
      (∀ (n : Nat) (s' : BasicBuffer), s.put_cursor_preceed n = .done s' () → s'.Inv) ∧
      (∀ (T : Scalar) (s' : BasicBuffer) (x : Int),
        BinaryBuffer.operator_shr T s = .done s' x → s'.Inv) ∧
      (∀ (T : Scalar) (x newbuf : Int) (s' : BasicBuffer),
        BinaryBuffer.operator_shl T x newbuf s = .done s' () → s'.Inv) ∧
      (∀ (str : List Byte) (newbuf : Int) (s' : BasicBuffer),
        TextBuffer.operator_shl_string str newbuf s = .done s' () → s'.Inv) ∧
      (∀ (x newbuf : Int) (s' : BasicBuffer),
        TextBuffer.operator_shl x newbuf s = .done s' () → s'.Inv) ∧
      (BasicBuffer.move s).1.Inv ∧ (BasicBuffer.move s).2.Inv := by
  refine ⟨fun mem => by simp [BasicBuffer.Inv, BasicBuffer.new, BasicBuffer.buffer,
    BasicBuffer.cursor, BasicBuffer.end_, BasicBuffer.capacity], ?_⟩
  intro s hi
  refine ⟨?_, ?_, ?_, ?_, ?_, ?_, ?_, ?_⟩
  · simp only [BasicBuffer.Inv, BasicBuffer.reset_cursor, BasicBuffer.buffer,
      BasicBuffer.cursor, BasicBuffer.end_, BasicBuffer.capacity] at hi ⊢
    omega
  · intro n s' h
    exact BasicBuffer.put_cursor_preceed_inv s s' n hi h
  · intro T s' x h
    obtain ⟨hc, hs, _⟩ := BinaryBuffer.get_raw_done T s s' x h
    subst hs
    simp only [BasicBuffer.Inv, BasicBuffer.buffer, BasicBuffer.cursor, BasicBuffer.end_,
      BasicBuffer.capacity] at hi ⊢
    omega
  · intro T x newbuf s' h
    obtain ⟨hc, hs⟩ := BinaryBuffer.put_raw_done T x newbuf s s' h
    subst hs
    simp only [BasicBuffer.Inv, BasicBuffer.buffer, BasicBuffer.cursor, BasicBuffer.end_,
      BasicBuffer.capacity] at hi ⊢
    omega
  · intro str newbuf s' h
    exact TextBuffer.operator_shl_string_inv str newbuf s s' hi h
  · intro x newbuf s' h
    exact TextBuffer.operator_shl_string_inv _ newbuf s s' hi h
  · exact hi
  · simp [BasicBuffer.Inv, BasicBuffer.move, BasicBuffer.clear, BasicBuffer.buffer,
      BasicBuffer.cursor, BasicBuffer.end_, BasicBuffer.capacity]

/-- C5 at a buffer of capacity `16` with eight valid bytes and the cursor at the
start: an advance by `4`, a binary read and a binary write of an `int32_t` and
the text write of `-17` all return, and the buffers they leave satisfy the
invariant. -/
theorem storage_invariant_preserved_witness :
    sampleRoom.Inv ∧
    (sampleRoom.put_cursor_preceed 4 =
        .done { sampleRoom with _cursor := 1004, _end := 1005 } () ∧
      ({ sampleRoom with _cursor := 1004, _end := 1005 } : BasicBuffer).Inv) ∧
    (BinaryBuffer.operator_shr .int32_t sampleRoom =
        .done { sampleRoom with _cursor := 1004, _end := 1005 } 42 ∧
      ({ sampleRoom with _cursor := 1004, _end := 1005 } : BasicBuffer).Inv) ∧
    (BinaryBuffer.operator_shl .int32_t 7 2000 sampleRoom =
        .done { sampleRoom with mem := storeBytes sampleMem 1008 [7, 0, 0, 0],
                                _cursor := 1004, _end := 1005 } () ∧
      ({ sampleRoom with mem := storeBytes sampleMem 1008 [7, 0, 0, 0],
                         _cursor := 1004, _end := 1005 } : BasicBuffer).Inv) ∧
    (TextBuffer.operator_shl (-17) 2000 sampleRoom =
        .done { sampleRoom with mem := storeBytes sampleMem 1000 [45, 49, 55, 32],
                                _cursor := 1004, _end := 1005 } () ∧
      ({ sampleRoom with mem := storeBytes sampleMem 1000 [45, 49, 55, 32],
                         _cursor := 1004, _end := 1005 } : BasicBuffer).Inv) :=
  have h := storage_invariant_preserved.2 sampleRoom (by decide)
  ⟨by decide,
   ⟨rfl, h.2.1 4 _ rfl⟩,
   ⟨rfl, h.2.2.1 .int32_t _ 42 rfl⟩,
   ⟨rfl, h.2.2.2.1 .int32_t 7 2000 _ rfl⟩,
   ⟨rfl, h.2.2.2.2.2.1 (-17) 2000 _ (by rfl)⟩⟩

/-! ## C6 -/

/-- C6 (the code on every advance that passes its `CHECK`): the cursor moves by
`n`, but `end` is set to the new cursor plus one, not to the new cursor, so
`read_finished()` is false immediately after the advance. -/
theorem put_cursor_preceed_leaves_end_past_cursor (s s' : BasicBuffer) (n : Nat)
    (h : s.put_cursor_preceed n = .done s' ()) :
    s'.cursor = s.cursor + n ∧ s'.end_ = s'.cursor + 1 ∧
      s'.read_finished = .done s' false := by
  by_cases hc : s._cursor + n < s._end
  · rw [BasicBuffer.put_cursor_preceed_of_lt s n hc] at h
    injection h with h1 _
    subst h1
    simp [BasicBuffer.cursor, BasicBuffer.end_, BasicBuffer.read_finished]
  · rw [BasicBuffer.put_cursor_preceed_of_not_lt s n hc] at h
    cases h

/-- C6 at a buffer with eight valid bytes and the cursor at the start: after
`put_cursor_preceed(4)` the cursor is at offset `4`, `end` at offset `5`, and
`read_finished()` returns false. -/
theorem put_cursor_preceed_leaves_end_past_cursor_witness :
    sampleFull.put_cursor_preceed 4 =
        .done { sampleFull with _cursor := 1004, _end := 1005 } () ∧
      ({ sampleFull with _cursor := 1004, _end := 1005 } : BasicBuffer).end_ =
        ({ sampleFull with _cursor := 1004, _end := 1005 } : BasicBuffer).cursor + 1 ∧
      ({ sampleFull with _cursor := 1004, _end := 1005 } : BasicBuffer).read_finished =
        .done { sampleFull with _cursor := 1004, _end := 1005 } false :=
  have h := put_cursor_preceed_leaves_end_past_cursor sampleFull
    { sampleFull with _cursor := 1004, _end := 1005 } 4 rfl
  ⟨rfl, h.2.1, h.2.2⟩

/-! ## C7 -/

/-- C7 (the code at the failing inputs): when exactly `sizeof(T)` valid bytes
remain, `cursor + sizeof(T) == end`, the binary read does not return:
`put_cursor_preceed` demands `cursor() + sizeof(T) < end()`.  The buffer is
left as it was. -/
theorem binary_read_of_last_value_fails (T : Scalar) (s : BasicBuffer)
    (h : s.cursor + T.sizeof = s.end_) :
    BinaryBuffer.operator_shr T s = .check_failed s := by
  simp only [BasicBuffer.cursor, BasicBuffer.end_] at h
  exact BinaryBuffer.get_raw_of_not_lt T s (by omega)

/-- C7 at a buffer with exactly eight valid bytes and the cursor at the start:
the read of a `uint64_t` fails its `CHECK`. -/
theorem binary_read_of_last_value_fails_witness :
    sampleFull.Inv ∧ sampleFull.cursor < sampleFull.end_ ∧
      sampleFull.cursor + Scalar.uint64_t.sizeof = sampleFull.end_ ∧
      BinaryBuffer.operator_shr .uint64_t sampleFull = .check_failed sampleFull :=
  ⟨by decide, by decide, by decide,
   binary_read_of_last_value_fails .uint64_t sampleFull (by decide)⟩

/-! ## C8 -/

/-- C8: on an exhausted buffer, `end <= cursor`, a binary read of any scalar
type fails a `CHECK` before anything is copied: no value is produced and the
buffer (cursor, end, capacity, region and bytes) is what it was.  The same
holds for `get<T>()`. -/
theorem binary_read_on_exhausted_buffer_fails (T : Scalar) (s : BasicBuffer)
    (h : s.end_ ≤ s.cursor) :
    BinaryBuffer.operator_shr T s = .check_failed s ∧
      BinaryBuffer.get T s = .check_failed s := by
  have hpos := T.sizeof_pos
  simp only [BasicBuffer.cursor, BasicBuffer.end_] at h
  have hr : BinaryBuffer.get_raw T s = .check_failed s :=
    BinaryBuffer.get_raw_of_not_lt T s (by omega)
  exact ⟨hr, hr⟩

/-- C8 at a buffer whose cursor is at `end`: the read of an `int32_t` fails and
the buffer is unchanged. -/
theorem binary_read_on_exhausted_buffer_fails_witness :
    sampleWrite.end_ ≤ sampleWrite.cursor ∧
      BinaryBuffer.operator_shr .int32_t sampleWrite = .check_failed sampleWrite ∧
      BinaryBuffer.get .int32_t sampleWrite = .check_failed sampleWrite :=
  ⟨by decide, binary_read_on_exhausted_buffer_fails .int32_t sampleWrite (by decide)⟩

/-! ## C9 -/

/-- C9 (the code on every binary read that returns): the read does not leave
`end` alone.  It goes through `put_cursor_preceed`, which sets `end` to the new
cursor plus one; region, capacity and bytes are kept.  So `end` keeps its value
only if it was exactly `cursor + sizeof(T) + 1`, and it never grows. -/
theorem binary_read_moves_end (T : Scalar) (s s' : BasicBuffer) (x : Int)
    (h : BinaryBuffer.operator_shr T s = .done s' x) :
    s'.cursor = s.cursor + T.sizeof ∧ s'.end_ = s.cursor + T.sizeof + 1 ∧
      s'.end_ ≤ s.end_ ∧ s'.buffer = s.buffer ∧ s'.capacity = s.capacity ∧
      s'.mem = s.mem := by
  obtain ⟨hc, hs, _⟩ := BinaryBuffer.get_raw_done T s s' x h
  subst hs
  simp only [BasicBuffer.cursor, BasicBuffer.end_, BasicBuffer.buffer, BasicBuffer.capacity]
  refine ⟨trivial, trivial, ?_, trivial, trivial, trivial⟩
  omega

/-- C9 at a buffer holding the `int32_t` values `42` and `7`: the first read
returns `42` and moves `end` from offset `8` to offset `5`, so that `size()`
drops to `5` and the read of the second value fails its `CHECK`. -/
theorem binary_read_moves_end_witness :
    sampleFull.Inv ∧ sampleFull.size = 8 ∧
      BinaryBuffer.operator_shr .int32_t sampleFull =
        .done { sampleFull with _cursor := 1004, _end := 1005 } 42 ∧
      ({ sampleFull with _cursor := 1004, _end := 1005 } : BasicBuffer).end_ = 1000 + 4 + 1 ∧
      ({ sampleFull with _cursor := 1004, _end := 1005 } : BasicBuffer).size = 5 ∧
      BinaryBuffer.operator_shr .int32_t { sampleFull with _cursor := 1004, _end := 1005 } =
        .check_failed { sampleFull with _cursor := 1004, _end := 1005 } :=
  ⟨by decide, by decide, rfl,
   (binary_read_moves_end .int32_t sampleFull
      { sampleFull with _cursor := 1004, _end := 1005 } 42 rfl).2.1,
   by decide, rfl⟩

/-! ## C10 -/

/-- C10 (the code on every state and every target): `set_cursor(x)` never
compares `x` with `end()`; its `CHECK` tests the cursor that is about to be
overwritten.  It fails, leaving the buffer as it was, exactly when the current
cursor is not before `end()`, and otherwise stores `x`, whatever `x` is. -/
theorem set_cursor_checks_current_cursor (s : BasicBuffer) (x : Int) :
    (s.set_cursor x = .check_failed s ↔ s.end_ ≤ s.cursor) ∧
      (s.set_cursor x = .done { s with _cursor := x } () ↔ s.cursor < s.end_) := by
  by_cases hc : s._cursor < s._end
  · have hn : ¬ s._end ≤ s._cursor := by omega
    simp [BasicBuffer.set_cursor, BasicBuffer.cursor, BasicBuffer.end_, hc, hn]
  · have hn : s._end ≤ s._cursor := by omega
    simp [BasicBuffer.set_cursor, BasicBuffer.cursor, BasicBuffer.end_, hc, hn]

/-- C10 at the failing inputs.  With the cursor at offset `0` and `end` at
offset `8`, `set_cursor` accepts the target at offset `12`, beyond `end()`.
With cursor and `end` both at offset `4`, it rejects the target at offset `2`
and the target `buffer()`, both inside the valid data; `reset_cursor()` moves
the cursor to `buffer()` in that state. -/
theorem set_cursor_checks_current_cursor_witness :
    (sampleFull.cursor < sampleFull.end_ ∧ sampleFull.end_ < 1012 ∧
      sampleFull.set_cursor 1012 = .done { sampleFull with _cursor := 1012 } ()) ∧
    (sampleWrite.end_ ≤ sampleWrite.cursor ∧
      sampleWrite.buffer ≤ 1002 ∧ 1002 ≤ sampleWrite.end_ ∧
      sampleWrite.set_cursor 1002 = .check_failed sampleWrite ∧
      sampleWrite.set_cursor sampleWrite.buffer = .check_failed sampleWrite ∧
      sampleWrite.reset_cursor.cursor = sampleWrite.buffer) :=
  ⟨⟨by decide, by decide,
    (set_cursor_checks_current_cursor sampleFull 1012).2.mpr (by decide)⟩,
   ⟨by decide, by decide, by decide,
    (set_cursor_checks_current_cursor sampleWrite 1002).1.mpr (by decide),
    (set_cursor_checks_current_cursor sampleWrite sampleWrite.buffer).1.mpr (by decide),
    rfl⟩⟩

/-! ## Facts about the byte store -/

/-- The bytes loaded from `p`, as a map over the offsets `0, ..., n - 1`. -/
theorem loadBytes_eq (mem : Memory) (p : Int) (n : Nat) :
    loadBytes mem p n = (List.range n).map (fun i : Nat => mem (p + (i : Int))) := by
  unfold loadBytes
  induction (List.range n) with
  | nil => rfl
  | cons a l ih =>
    simp only [List.map_cons]
    rw [← ih]
    rfl

/-- Loading `n` bytes gives `n` bytes. -/
theorem loadBytes_length (mem : Memory) (p : Int) (n : Nat) :
    (loadBytes mem p n).length = n := by
  rw [loadBytes_eq, List.length_map, List.length_range]

/-- The byte number `i` loaded from `p` is the byte at address `p + i`. -/
theorem loadBytes_getElem (mem : Memory) (p : Int) (n i : Nat)
    (h : i < (loadBytes mem p n).length) : (loadBytes mem p n)[i] = mem (p + i) := by
  simp only [loadBytes_eq, List.getElem_map, List.getElem_range]

/-- Bytes stored at `p` are the bytes loaded from `p`. -/
theorem loadBytes_storeBytes (mem : Memory) (p : Int) (x : List Byte) :
    loadBytes (storeBytes mem p x) p x.length = x := by
  apply List.ext_getElem
  · exact loadBytes_length _ _ _
  · intro i h1 h2
    rw [loadBytes_getElem]
    have hc : p ≤ p + (i : Int) ∧ p + (i : Int) < p + (x.length : Int) := by omega
    have ht : (p + (i : Int) - p).toNat = i := by omega
    simp only [storeBytes, hc, and_self, if_true, ht]
    rw [List.getD_eq_getElem?_getD, List.getElem?_eq_getElem h2]
    rfl

/-- Loading one more byte: the byte at `p`, then the bytes from `p + 1`. -/
theorem loadBytes_succ (mem : Memory) (p : Int) (n : Nat) :
    loadBytes mem p (n + 1) = mem p :: loadBytes mem (p + 1) n := by
  apply List.ext_getElem
  · simp only [loadBytes_length, List.length_cons]
  · intro i h1 h2
    rw [loadBytes_getElem]
    cases i with
    | zero => simp
    | succ j =>
      simp only [List.getElem_cons_succ]
      rw [loadBytes_getElem]
      congr 1
      push_cast
      ring

/-- Loading `a + b` bytes: `a` bytes from `p`, then `b` bytes from `p + a`. -/
theorem loadBytes_add (mem : Memory) (p : Int) (a b : Nat) :
    loadBytes mem p (a + b) = loadBytes mem p a ++ loadBytes mem (p + a) b := by
  induction a generalizing p with
  | zero => simp [loadBytes_eq]
  | succ a ih =>
    have e : a + 1 + b = (a + b) + 1 := by omega
    rw [e, loadBytes_succ, loadBytes_succ, ih, List.cons_append]
    congr 3
    push_cast
    ring

/-! ## Facts about the text read -/

/-- A run of `k` spaces followed by a byte that is not white space is skipped
exactly, when the fuel exceeds `k`. -/
theorem skipSpaces_of_spaces (mem : Memory) :
    ∀ (k fuel : Nat) (p : Int), k < fuel → loadBytes mem p k = List.replicate k 32 →
      isspace (mem (p + k)) = false → skipSpaces fuel mem p = p + k := by
  intro k
  induction k with
  | zero =>
    intro fuel p hf _ hn
    obtain ⟨f, rfl⟩ : ∃ f, fuel = f + 1 := ⟨fuel - 1, by omega⟩
    have hn' : isspace (mem p) = false := by simpa using hn
    simp [skipSpaces, hn']
  | succ k ih =>
    intro fuel p hf hl hn
    obtain ⟨f, rfl⟩ : ∃ f, fuel = f + 1 := ⟨fuel - 1, by omega⟩
    rw [loadBytes_succ, List.replicate_succ] at hl
    injection hl with h0 hrest
    have hsp : isspace (mem p) = true := by rw [h0]; decide
    have hn' : isspace (mem (p + 1 + (k : Int))) = false := by
      have e : p + 1 + (k : Int) = p + ((k + 1 : Nat) : Int) := by push_cast; ring
      rw [e]; exact hn
    have := ih f (p + 1) (by omega) hrest hn'
    simp only [skipSpaces, hsp, if_true, this]
    push_cast
    ring

/-- A run of digits followed by a byte that is not a digit is scanned exactly,
when the fuel exceeds its length: the value is accumulated digit by digit and
the scan stops at the byte after the run. -/
theorem scanDigits_of_digits (mem : Memory) :
    ∀ (ds : List Byte) (fuel : Nat) (q : Int) (acc : Nat), ds.length < fuel →
      loadBytes mem q ds.length = ds → (∀ d ∈ ds, isdigit d = true) →
      isdigit (mem (q + ds.length)) = false →
      scanDigits fuel mem q acc =
        (ds.foldl (fun a d => 10 * a + (d.val - 48)) acc, q + ds.length) := by
  intro ds
  induction ds with
  | nil =>
    intro fuel q acc hf _ _ hn
    obtain ⟨f, rfl⟩ : ∃ f, fuel = f + 1 := ⟨fuel - 1, by omega⟩
    have hn' : isdigit (mem q) = false := by simpa using hn
    simp [scanDigits, hn']
  | cons d ds ih =>
    intro fuel q acc hf hl hd hn
    simp only [List.length_cons] at hf hl hn
    obtain ⟨f, rfl⟩ : ∃ f, fuel = f + 1 := ⟨fuel - 1, by omega⟩
    rw [loadBytes_succ] at hl
    injection hl with h0 hrest
    have hdg : isdigit (mem q) = true := by rw [h0]; exact hd d (List.mem_cons_self _ _)
    have hn' : isdigit (mem (q + 1 + (ds.length : Int))) = false := by
      have e : q + 1 + (ds.length : Int) = q + ((ds.length + 1 : Nat) : Int) := by
        push_cast; ring
      rw [e]; exact hn
    have := ih f (q + 1) (10 * acc + ((mem q).val - 48)) (by omega) hrest
      (fun d' h' => hd d' (List.mem_cons_of_mem _ h')) hn'
    rw [scanDigits, if_pos hdg, this, List.foldl_cons, h0, List.length_cons]
    congr 1
    push_cast
    ring

/-- The digits that `std::to_string` produces for `n`: a non-empty list of
digit bytes in front of `acc`, no longer than the fuel, which spells `n`. -/
theorem decimalDigits_spec :
    ∀ (fuel n : Nat) (acc : List Byte), n < fuel →
      ∃ pre : List Byte, decimalDigits fuel n acc = pre ++ acc ∧ pre ≠ [] ∧
        pre.length ≤ fuel ∧ (∀ d ∈ pre, isdigit d = true) ∧
        ∀ a : Nat, pre.foldl (fun a d => 10 * a + (d.val - 48)) a = a * 10 ^ pre.length + n := by
  intro fuel
  induction fuel with
  | zero => intro n acc h; omega
  | succ f ih =>
    intro n acc hn
    have hdig : isdigit (⟨48 + n % 10, by omega⟩ : Byte) = true := by
      simp only [isdigit, decide_eq_true_eq]
      omega
    by_cases h0 : n / 10 = 0
    · refine ⟨[⟨48 + n % 10, by omega⟩], ?_, by simp, by simp, ?_, ?_⟩
      · simp [decimalDigits, h0]
      · intro d hd
        rw [List.mem_singleton] at hd
        rw [hd]; exact hdig
      · intro a
        simp only [List.foldl_cons, List.foldl_nil, List.length_singleton, pow_one]
        omega
    · obtain ⟨pre, hpre, hne, hlen, hall, hval⟩ :=
        ih (n / 10) ((⟨48 + n % 10, by omega⟩ : Byte) :: acc) (by omega)
      refine ⟨pre ++ [⟨48 + n % 10, by omega⟩], ?_, by simp, ?_, ?_, ?_⟩
      · simp [decimalDigits, h0, hpre]
      · simp only [List.length_append, List.length_singleton]; omega
      · intro d hd
        rw [List.mem_append, List.mem_singleton] at hd
        rcases hd with hd | hd
        · exact hall d hd
        · rw [hd]; exact hdig
      · intro a
        simp only [List.foldl_append, List.foldl_cons, List.foldl_nil, hval,
          List.length_append, List.length_singleton, pow_succ]
        have : 48 + n % 10 - 48 = n % 10 := by omega
        rw [this]
        have h2 : n = 10 * (n / 10) + n % 10 := (Nat.div_add_mod n 10).symm
        nlinarith [h2]

/-- A digit is neither white space nor a sign. -/
theorem isdigit_not_space_or_sign (d : Byte) (h : isdigit d = true) :
    isspace d = false ∧ d ≠ 45 ∧ d ≠ 43 := by
  refine ⟨?_, ?_, ?_⟩
  · simp only [isdigit, decide_eq_true_eq] at h
    simp only [isspace, decide_eq_false_iff_not]
    omega
  · intro e
    subst e
    exact absurd h (by decide)
  · intro e
    subst e
    exact absurd h (by decide)

/-- The text of an integer: a minus sign if it is negative, then a non-empty
run of digits that spells its absolute value. -/
theorem to_string_spec (v : Int) :
    ∃ ds : List Byte, to_string v = (if v < 0 then [45] else []) ++ ds ∧ ds ≠ [] ∧
      ds.length ≤ v.natAbs + 1 ∧ (∀ d ∈ ds, isdigit d = true) ∧
      ds.foldl (fun a d => 10 * a + (d.val - 48)) 0 = v.natAbs := by
  obtain ⟨pre, hpre, hne, hlen, hall, hval⟩ :=
    decimalDigits_spec (v.natAbs + 1) v.natAbs [] (by omega)
  rw [List.append_nil] at hpre
  refine ⟨pre, ?_, hne, hlen, hall, ?_⟩
  · by_cases hv : v < 0 <;> simp [to_string, hv, hpre]
  · rw [hval 0]; simp

/-- The three parts of a token in memory: the spaces, the text, and the space
that follows it. -/
theorem token_layout (mem : Memory) (p : Int) (k : Nat) (t : List Byte)
    (h : loadBytes mem p (k + t.length + 1) = List.replicate k 32 ++ t ++ [32]) :
    loadBytes mem p k = List.replicate k 32 ∧ loadBytes mem (p + k) t.length = t ∧
      mem (p + k + t.length) = 32 := by
  rw [loadBytes_add, loadBytes_add] at h
  have h1 := List.append_inj h (by simp [loadBytes_length])
  have h2 := List.append_inj h1.1 (by simp [loadBytes_length])
  refine ⟨h2.1, h2.2, ?_⟩
  have h3 := h1.2
  rw [loadBytes_succ] at h3
  injection h3 with h4 _
  rw [← h4]
  congr 1
  push_cast
  ring

/-- The subject sequence of a well-formed token: after `k` spaces, an optional
minus sign and the digits `ds`, followed by a space, the parse yields the sign,
the number the digits spell, and the address of the space. -/
theorem parseDecimal_of_token (mem : Memory) (p : Int) (k : Nat) (neg : Bool) (ds : List Byte)
    (hk : k < SIZE_MOD) (hl : ds.length < SIZE_MOD) (hne : ds ≠ [])
    (hd : ∀ d ∈ ds, isdigit d = true)
    (hm : loadBytes mem p (k + ((if neg then [45] else []) ++ ds).length + 1) =
      List.replicate k 32 ++ ((if neg then [45] else []) ++ ds) ++ [32]) :
    parseDecimal mem p =
      some (neg, ds.foldl (fun a d => 10 * a + (d.val - 48)) 0,
        p + k + ((if neg then [45] else [] : List Byte) ++ ds).length) := by
  obtain ⟨hA, hB, hC⟩ := token_layout mem p k _ hm
  obtain ⟨d0, ds', rfl⟩ : ∃ d0 ds', ds = d0 :: ds' := by
    cases ds with
    | nil => exact absurd rfl hne
    | cons a l => exact ⟨a, l, rfl⟩
  have hd0 := isdigit_not_space_or_sign d0 (hd d0 (List.mem_cons_self _ _))
  have h32 : isdigit (32 : Byte) = false := by decide
  cases neg with
  | true =>
    simp only [if_true, List.singleton_append, List.length_cons] at hB hC ⊢
    rw [loadBytes_succ] at hB
    injection hB with hsign hdig
    have hsp : isspace (mem (p + k)) = false := by rw [hsign]; decide
    have hskip := skipSpaces_of_spaces mem k SIZE_MOD p hk hA hsp
    have hdig' : loadBytes mem (p + k + 1) (d0 :: ds').length = d0 :: ds' := by
      simpa using hdig
    have hfirst : mem (p + k + 1) = d0 := by
      rw [List.length_cons, loadBytes_succ] at hdig'
      injection hdig'
    have hstop : isdigit (mem (p + k + 1 + ((d0 :: ds').length : Int))) = false := by
      have e : p + k + 1 + ((d0 :: ds').length : Int) = p + k + ((ds'.length + 1 + 1 : Nat) : Int) := by
        simp only [List.length_cons]; push_cast; ring
      rw [e, hC]; exact h32
    have hscan := scanDigits_of_digits mem (d0 :: ds') SIZE_MOD (p + k + 1) 0 hl hdig'
      hd hstop
    have hq : isdigit (mem (p + k + 1)) = true := by
      rw [hfirst]; exact hd d0 (List.mem_cons_self _ _)
    simp only [parseDecimal, hskip, hsign, true_or, if_true, hq, hscan, decide_True]
    congr 3
    simp only [List.length_cons]
    push_cast
    ring
  | false =>
    simp only [Bool.false_eq_true, if_false, List.nil_append] at hB hC ⊢
    have hfirst : mem (p + k) = d0 := by
      rw [List.length_cons, loadBytes_succ] at hB
      injection hB
    have hsp : isspace (mem (p + k)) = false := by rw [hfirst]; exact hd0.1
    have hskip := skipSpaces_of_spaces mem k SIZE_MOD p hk hA hsp
    have hstop : isdigit (mem (p + k + ((d0 :: ds').length : Int))) = false := by
      rw [hC]; exact h32
    have hscan := scanDigits_of_digits mem (d0 :: ds') SIZE_MOD (p + k) 0 hl hB hd hstop
    have hq : isdigit (mem (p + k)) = true := by
      rw [hfirst]; exact hd d0 (List.mem_cons_self _ _)
    have hm45 : ¬ mem (p + k) = 45 := by rw [hfirst]; exact hd0.2.1
    have hm43 : ¬ mem (p + k) = 43 := by rw [hfirst]; exact hd0.2.2
    simp only [parseDecimal, hskip, hm45, hm43, or_self, if_false, hq, hscan, if_true,
      decide_False]

/-- The call `strtol` on a well-formed token of a value of `long`: the value,
and the address of the space that follows the token. -/
theorem strtol_of_token (mem : Memory) (p : Int) (k : Nat) (v : Int)
    (hk : k < SIZE_MOD) (hlo : LONG_MIN ≤ v) (hhi : v ≤ LONG_MAX)
    (hm : loadBytes mem p (k + (to_string v).length + 1) =
      List.replicate k 32 ++ to_string v ++ [32]) :
    strtol mem p = (v, p + k + (to_string v).length) := by
  obtain ⟨ds, hts, hne, hlen, hall, hval⟩ := to_string_spec v
  simp only [LONG_MIN, LONG_MAX] at hlo hhi
  have hl : ds.length < SIZE_MOD := by
    simp only [SIZE_MOD]; omega
  have hts' : to_string v = (if decide (v < 0) = true then [45] else []) ++ ds := by
    simpa using hts
  rw [hts'] at hm ⊢
  have hp := parseDecimal_of_token mem p k (decide (v < 0)) ds hk hl hne hall hm
  simp only [strtol, hp, hval]
  congr 1
  by_cases hv : v < 0
  · simp only [hv, decide_True, if_true, LONG_MIN]
    omega
  · simp only [hv, decide_False, Bool.false_eq_true, if_false, LONG_MAX]
    omega

/-! ## C11 -/

/-- C11: `read_finished()` fails its `CHECK` if and only if `cursor > end`;
when it returns, it returns true if and only if `cursor == end`; in both cases
the buffer is the one it was called on. -/
theorem read_finished_contract (s : BasicBuffer) :
    (s.read_finished = .check_failed s ↔ s.end_ < s.cursor) ∧
      (s.read_finished.completes = false ↔ s.end_ < s.cursor) ∧
      (s.read_finished = .done s true ↔ s.cursor = s.end_) ∧
      (s.read_finished = .done s false ↔ s.cursor < s.end_) := by
  by_cases hle : s._cursor ≤ s._end
  · have hn : ¬ s._end < s._cursor := by omega
    by_cases he : s._cursor = s._end
    · have hlt : ¬ s._cursor < s._end := by omega
      simp [BasicBuffer.read_finished, BasicBuffer.cursor, BasicBuffer.end_, Outcome.completes,
        he]
    · have hlt : s._cursor < s._end := by omega
      simp [BasicBuffer.read_finished, BasicBuffer.cursor, BasicBuffer.end_, Outcome.completes,
        hle, hn, he, hlt]
  · have hn : s._end < s._cursor := by omega
    have he : ¬ s._cursor = s._end := by omega
    have hlt : ¬ s._cursor < s._end := by omega
    simp [BasicBuffer.read_finished, BasicBuffer.cursor, BasicBuffer.end_, Outcome.completes,
      hle, hn, he, hlt]

/-- C11 at three buffers: cursor before `end`, cursor at `end`, cursor beyond
`end`. -/
theorem read_finished_contract_witness :
    (sampleFull.cursor < sampleFull.end_ ∧ sampleFull.read_finished = .done sampleFull false) ∧
    (sampleWrite.cursor = sampleWrite.end_ ∧
      sampleWrite.read_finished = .done sampleWrite true) ∧
    (sampleFull.end_ < 1012 ∧
      ({ sampleFull with _cursor := 1012 } : BasicBuffer).read_finished =
        .check_failed { sampleFull with _cursor := 1012 }) :=
  ⟨⟨by decide, (read_finished_contract sampleFull).2.2.2.mpr (by decide)⟩,
   ⟨by decide, (read_finished_contract sampleWrite).2.2.1.mpr (by decide)⟩,
   ⟨by decide, (read_finished_contract { sampleFull with _cursor := 1012 }).1.mpr (by decide)⟩⟩

/-! ## C12 -/

/-- C12: after `reset_cursor()` the cursor is at the start of the region, while
the region, `end`, `size()`, `capacity()` and every stored byte are unchanged;
a second `reset_cursor()` changes nothing. -/
theorem reset_cursor_frame (s : BasicBuffer) :
    s.reset_cursor.cursor = s.buffer ∧ s.reset_cursor.cursor - s.reset_cursor.buffer = 0 ∧
      s.reset_cursor.buffer = s.buffer ∧ s.reset_cursor.end_ = s.end_ ∧
      s.reset_cursor.size = s.size ∧ s.reset_cursor.capacity = s.capacity ∧
      s.reset_cursor.mem = s.mem ∧ s.reset_cursor.reset_cursor = s.reset_cursor := by
  simp [BasicBuffer.reset_cursor, BasicBuffer.cursor, BasicBuffer.buffer, BasicBuffer.end_,
    BasicBuffer.size, BasicBuffer.capacity]

/-! ## C13 -/

/-- C13: move construction gives the new buffer exactly the region, cursor,
end, capacity and bytes of the source, and leaves the source empty: no region
(`_buffer` null), cursor and end null, `capacity() == 0` and `size() == 0`. -/
theorem move_transfers_ownership (s : BasicBuffer) :
    (BasicBuffer.move s).1 = s ∧
      (BasicBuffer.move s).2.buffer = 0 ∧ (BasicBuffer.move s).2.cursor = 0 ∧
      (BasicBuffer.move s).2.end_ = 0 ∧ (BasicBuffer.move s).2.capacity = 0 ∧
      (BasicBuffer.move s).2.size = 0 ∧
      (BasicBuffer.move s).2 = BasicBuffer.new s.mem := by
  simp [BasicBuffer.move, BasicBuffer.clear, BasicBuffer.new, BasicBuffer.cursor,
    BasicBuffer.buffer, BasicBuffer.end_, BasicBuffer.size, BasicBuffer.capacity]

/-! ## C14 -/

/-- A string write of a non-empty string returns only if the `CHECK` of
`put_cursor_preceed` passed in the state it was given, and then `reserve`
changed nothing: the string is stored at `buffer()`, the cursor advances by its
length and `end` becomes the new cursor plus one. -/
theorem TextBuffer.operator_shl_string_done (x : List Byte) (newbuf : Int)
    (s s' : BasicBuffer) (hx : x ≠ [])
    (h : TextBuffer.operator_shl_string x newbuf s = .done s' ()) :
    s._cursor + x.length < s._end ∧
      s' = { s with mem := storeBytes s.mem s._buffer x,
                    _cursor := s._cursor + x.length,
                    _end := s._cursor + x.length + 1 } := by
  have hpos : 1 ≤ x.length := by
    cases x with
    | nil => exact absurd rfl hx
    | cons a l => simp
  obtain ⟨r, hr, hc, hs⟩ := TextBuffer.operator_shl_string_post x newbuf s s' h
  have hcases : r = s ∨ r._end ≤ r._cursor + 1 := by
    rw [hr]
    split
    · rcases BasicBuffer.reserve_eq_or_end_le s newbuf (2 * s.capacity % SIZE_MOD) with hk | hk
      · exact Or.inl hk
      · exact Or.inr hk.1
    · exact Or.inl rfl
  rcases hcases with hk | hk
  · rw [hk] at hc hs
    exact ⟨hc, hs⟩
  · omega

/-- C14 (the code on every string write that returns): the bytes of a non-empty
string are copied to `buffer()`, offsets `[0, |s|)`, not to the logical end:
the bytes that were stored there are overwritten and the bytes from offset
`|s|` on keep their values.  The cursor advances by `|s|` and `end` becomes the
new cursor plus one. -/
theorem text_string_write_stores_at_start (x : List Byte) (newbuf : Int)
    (s s' : BasicBuffer) (hx : x ≠ [])
    (h : TextBuffer.operator_shl_string x newbuf s = .done s' ()) :
    loadBytes s'.mem s.buffer x.length = x ∧
      (∀ a : Int, s.buffer + x.length ≤ a → s'.mem a = s.mem a) ∧
      s'.buffer = s.buffer ∧ s'.cursor = s.cursor + x.length ∧
      s'.end_ = s.cursor + x.length + 1 := by
  obtain ⟨_, hs⟩ := TextBuffer.operator_shl_string_done x newbuf s s' hx h
  subst hs
  refine ⟨?_, ?_, rfl, rfl, rfl⟩
  · exact loadBytes_storeBytes s.mem s._buffer x
  · intro a ha
    simp only [BasicBuffer.buffer] at ha
    have hn : ¬ (s._buffer ≤ a ∧ a < s._buffer + x.length) := by omega
    simp [storeBytes, hn]

/-- C14 at a buffer of capacity `16` with eight valid bytes (the first is
`42`) and the cursor at the start: the write of `"ab"` returns; afterwards the
two bytes are at offsets `0` and `1`, where they replaced `42` and `0`, and the
bytes at offsets `8` and `9`, the old logical end, are still `0`. -/
theorem text_string_write_stores_at_start_witness :
    sampleRoom.size = 8 ∧ sampleRoom.mem 1000 = 42 ∧
    TextBuffer.operator_shl_string [97, 98] 2000 sampleRoom =
      .done { sampleRoom with mem := storeBytes sampleMem 1000 [97, 98],
                              _cursor := 1002, _end := 1003 } () ∧
    loadBytes (storeBytes sampleMem 1000 [97, 98]) 1000 2 = [97, 98] ∧
    loadBytes (storeBytes sampleMem 1000 [97, 98]) 1008 2 = [0, 0] :=
  ⟨by decide, by decide, rfl,
   (text_string_write_stores_at_start [97, 98] 2000 sampleRoom
      { sampleRoom with mem := storeBytes sampleMem 1000 [97, 98],
                        _cursor := 1002, _end := 1003 } (by decide) rfl).1,
   by decide⟩

/-! ## C15 -/

/-- C15: for a signed integer type `T`, a value `v` of `T` and a buffer whose
cursor is before `end`, if the bytes from the cursor are `k` spaces (a run
that fits in the address space), the decimal text of `v` and a space, then the
text read returns normally with the value `v`; the cursor is moved to the
space that follows the token, which is not consumed, and region, `end`,
capacity and bytes are unchanged.  With `k >= 1` this is also the following
read, which starts at that space. -/
theorem text_read_of_well_formed_token (T : IntegerType) (v : Int) (k : Nat)
    (s : BasicBuffer) (hT : T.signed = true) (hv : T.inRange v) (hk : k < SIZE_MOD)
    (hc : s.cursor < s.end_)
    (hm : loadBytes s.mem s.cursor (k + (to_string v).length + 1) =
      List.replicate k 32 ++ to_string v ++ [32]) :
    TextBuffer.operator_shr T s =
        .done { s with _cursor := s.cursor + k + (to_string v).length } v ∧
      s.mem (s.cursor + k + (to_string v).length) = 32 := by
  have hbounds : LONG_MIN ≤ v ∧ v ≤ LONG_MAX ∧ T.usesStrtol = true ∧ T.cast v = v := by
    cases T <;> simp only [IntegerType.signed, Bool.false_eq_true] at hT <;>
      simp only [IntegerType.inRange] at hv <;>
      simp only [LONG_MIN, LONG_MAX, IntegerType.usesStrtol, IntegerType.cast, true_and] <;>
      omega
  obtain ⟨hlo, hhi, hu, hcast⟩ := hbounds
  have hst := strtol_of_token s.mem s.cursor k v hk hlo hhi hm
  have hc' : s._cursor < s.end_ := hc
  refine ⟨?_, (token_layout s.mem s.cursor k _ hm).2.2⟩
  unfold TextBuffer.operator_shr TextBuffer.get_math
  simp only [hu, if_true, hst, BasicBuffer.set_cursor, hc', hcast]

/-- C15 at a buffer whose valid bytes are the text `"-17 42 x"`: the read of an
`int32_t` at the start returns `-17` and leaves the cursor at offset `3`, on
the space; the following read starts at that space, returns `42` and leaves
the cursor at offset `6`. -/
theorem text_read_of_well_formed_token_witness :
    sampleTokens.cursor < sampleTokens.end_ ∧
    TextBuffer.operator_shr .int32_t sampleTokens =
      .done { sampleTokens with _cursor := 1003 } (-17) ∧
    TextBuffer.operator_shr .int32_t { sampleTokens with _cursor := 1003 } =
      .done { sampleTokens with _cursor := 1006 } 42 :=
  ⟨by decide,
   (text_read_of_well_formed_token .int32_t (-17) 0 sampleTokens rfl (by decide) (by decide)
      (by decide) (by rfl)).1.trans (by rfl),
   (text_read_of_well_formed_token .int32_t 42 1 { sampleTokens with _cursor := 1003 } rfl
      (by decide) (by decide) (by decide) (by rfl)).1.trans (by rfl)⟩

/-! ## C16 -/

/-- Without a subject sequence, `strtol` and `strtoul` return `0` and leave
`cend` at `nptr`. -/
theorem strtol_strtoul_of_none (mem : Memory) (nptr : Int)
    (h : parseDecimal mem nptr = none) :
    strtol mem nptr = (0, nptr) ∧ strtoul mem nptr = (0, nptr) := by
  simp [strtol, strtoul, h]

/-- A byte that is neither white space, nor a sign, nor a digit starts no
decimal number. -/
theorem parseDecimal_of_other_byte (mem : Memory) (nptr : Int)
    (hs : isspace (mem nptr) = false) (hd : isdigit (mem nptr) = false)
    (hm : mem nptr ≠ 45) (hp : mem nptr ≠ 43) :
    parseDecimal mem nptr = none := by
  have h1 : skipSpaces SIZE_MOD mem nptr = nptr := by
    have e : SIZE_MOD = 18446744073709551615 + 1 := rfl
    rw [e, skipSpaces]
    simp [hs]
  simp [parseDecimal, h1, hm, hp, hd]

/-- C16, counterexample: the valid bytes are the text `"abc "` and the cursor is
at the letter `a`.  The text read of an `int32_t` returns normally with the
value `0` and leaves the buffer as it was; no failure is reported. -/
theorem text_read_of_letter_returns_zero :
    sampleLetters.cursor < sampleLetters.end_ ∧ sampleLetters.mem sampleLetters.cursor = 97 ∧
      TextBuffer.operator_shr .int32_t sampleLetters = .done sampleLetters 0 :=
  ⟨by decide, by decide, rfl⟩

/-- C16, amended: when the cursor is before `end` and the bytes at the cursor
start no decimal number (no digit follows the optional white space and sign,
as with a letter), the text read of any integer type returns normally with the
value `0` (`false` for `bool`) and leaves the whole buffer, cursor included, as
it was. -/
theorem text_read_without_number_returns_zero (T : IntegerType) (s : BasicBuffer)
    (hc : s.cursor < s.end_) (hp : parseDecimal s.mem s.cursor = none) :
    TextBuffer.operator_shr T s = .done s 0 := by
  obtain ⟨h1, h2⟩ := strtol_strtoul_of_none s.mem s.cursor hp
  have hc' : s._cursor < s.end_ := hc
  have hz : T.cast 0 = 0 := by cases T <;> simp [IntegerType.cast]
  unfold TextBuffer.operator_shr TextBuffer.get_math
  simp only [h1, h2, ite_self, BasicBuffer.set_cursor, hc', if_true, hz]
  rfl

/-- C16 at the buffer holding `"abc "`, for a type read with `strtol` and a type
read with `strtoul`. -/
theorem text_read_without_number_returns_zero_witness :
    sampleLetters.cursor < sampleLetters.end_ ∧
      parseDecimal sampleLetters.mem sampleLetters.cursor = none ∧
      TextBuffer.operator_shr .int16_t sampleLetters = .done sampleLetters 0 ∧
      TextBuffer.operator_shr .uint64_t sampleLetters = .done sampleLetters 0 :=
  ⟨by decide, by rfl,
   text_read_without_number_returns_zero .int16_t sampleLetters (by decide) (by rfl),
   text_read_without_number_returns_zero .uint64_t sampleLetters (by decide) (by rfl)⟩

/-! ## C17 -/

/-- C17 (the code at the failing input): the region starts with the text
`"123 "` but only its first byte is valid (`end` at offset `1`), and the
invariant holds.  The text read of an `int32_t` passes the only `CHECK`, the
one of `set_cursor` on the old cursor, returns `123` and leaves the cursor at
offset `3`, beyond `end`.  With the same valid byte followed by a space
instead of `23`, the read returns `1`: the value depends on bytes at and beyond
`end`. -/
theorem text_read_can_pass_end :
    sampleText.Inv ∧
    TextBuffer.operator_shr .int32_t sampleText =
      .done { sampleText with _cursor := 1003 } 123 ∧
    sampleText.end_ < ({ sampleText with _cursor := 1003 } : BasicBuffer).cursor ∧
    sampleTextOther.Inv ∧ sampleTextOther.end_ = sampleText.end_ ∧
    (∀ a : Int, a < sampleText.end_ → sampleTextOther.mem a = sampleText.mem a) ∧
    TextBuffer.operator_shr .int32_t sampleTextOther =
      .done { sampleTextOther with _cursor := 1001 } 1 := by
  refine ⟨by decide, rfl, by decide, by decide, rfl, ?_, rfl⟩
  intro a ha
  have ha' : a < 1001 := ha
  by_cases h : a = 1000
  · subst h; rfl
  · have h1 : ¬ ((1000 : Int) ≤ a ∧ a < 1000 + (([49, 32] : List Byte).length : Int)) := by
      simp only [List.length_cons, List.length_nil]; omega
    have h2 : ¬ ((1000 : Int) ≤ a ∧
        a < 1000 + (([49, 50, 51, 32] : List Byte).length : Int)) := by
      simp only [List.length_cons, List.length_nil]; omega
    simp only [sampleTextOther, sampleText, sampleTextMem, storeBytes, h1, h2, if_false]

/-! ## C18 -/

/-- C18, counterexample: the cursor is below the start of the region (address
`990`, region at `1000`, `end` at `1008`, so `size() == 8`).
`put_cursor_preceed(0)` passes its `CHECK` and sets `end` to address `991`;
`size()`, the difference `end() - buffer()` converted to `size_t`, is then
`2 ^ 64 - 9`, larger than before. -/
theorem put_cursor_preceed_can_grow_size :
    sampleLow.size = 8 ∧
    sampleLow.put_cursor_preceed 0 = .done { sampleLow with _end := 991 } () ∧
    ({ sampleLow with _end := 991 } : BasicBuffer).size = 18446744073709551607 ∧
    sampleLow.size < ({ sampleLow with _end := 991 } : BasicBuffer).size :=
  ⟨by decide, rfl, by decide, by decide⟩

/-- C18, amended: if `put_cursor_preceed(n)` returns, the new `end` is less than
or equal to the old `end`, being `cursor + n + 1` with `cursor + n < end`; and
the new `size()` is less than or equal to the old `size()` whenever the cursor
was not below the start of the region (the old `end() - buffer()` being a
value of `size_t`). -/
theorem put_cursor_preceed_never_extends (s s' : BasicBuffer) (n : Nat)
    (h : s.put_cursor_preceed n = .done s' ()) :
    s.cursor + n < s.end_ ∧ s'.end_ = s.cursor + n + 1 ∧ s'.end_ ≤ s.end_ ∧
      (s.buffer ≤ s.cursor → s.end_ - s.buffer < SIZE_MOD → s'.size ≤ s.size) := by
  by_cases hc : s._cursor + n < s._end
  · rw [BasicBuffer.put_cursor_preceed_of_lt s n hc] at h
    injection h with h1 _
    subst h1
    simp only [BasicBuffer.cursor, BasicBuffer.end_, BasicBuffer.buffer, BasicBuffer.size]
    refine ⟨hc, trivial, by omega, ?_⟩
    intro hb hw
    have h1 : (s._cursor + n + 1 - s._buffer) % (SIZE_MOD : Int) = s._cursor + n + 1 - s._buffer :=
      Int.emod_eq_of_lt (by omega) (by omega)
    have h2 : (s._end - s._buffer) % (SIZE_MOD : Int) = s._end - s._buffer :=
      Int.emod_eq_of_lt (by omega) (by omega)
    rw [h1, h2]
    omega
  · rw [BasicBuffer.put_cursor_preceed_of_not_lt s n hc] at h
    cases h

/-- C18 at a buffer with eight valid bytes and the cursor at the start: after
`put_cursor_preceed(4)`, `end` has moved from offset `8` to offset `5` and
`size()` from `8` to `5`. -/
theorem put_cursor_preceed_never_extends_witness :
    sampleFull.put_cursor_preceed 4 =
        .done { sampleFull with _cursor := 1004, _end := 1005 } () ∧
      ({ sampleFull with _cursor := 1004, _end := 1005 } : BasicBuffer).end_ ≤ sampleFull.end_ ∧
      ({ sampleFull with _cursor := 1004, _end := 1005 } : BasicBuffer).size ≤ sampleFull.size :=
  have h := put_cursor_preceed_never_extends sampleFull
    { sampleFull with _cursor := 1004, _end := 1005 } 4 rfl
  ⟨rfl, h.2.2.1, h.2.2.2 (by decide) (by decide)⟩

/-! ## C19 -/

end swift_snails
